import Mathlib

/-!
Verification development for the Romi base model generator
(`mechanical/scad_models/scad_models.py`).

The Python code computes 2D geometry over floating point numbers; here the
arithmetic is embedded over the real numbers, keeping all list and string
structure fully concrete so that counts, orderings and feature names can be
settled by computation.  The low-level 2D primitive types (`P2D`, `Circle`,
`Square`, `SimplePolygon`, `Polygon` from `scad.py`) are external collaborators
of the core; their operations are modelled from the specification where noted.
-/

noncomputable section

/-- Modelled from the spec: `P2D` is the external 2D point primitive,
an (x, y) pair in millimeters. -/
structure P2D where
  x : ℝ
  y : ℝ

instance : Add P2D := ⟨fun a b => ⟨a.x + b.x, a.y + b.y⟩⟩

instance : Sub P2D := ⟨fun a b => ⟨a.x - b.x, a.y - b.y⟩⟩

/-- Modelled from the spec: Euclidean distance between two `P2D` points,
the semantics of `P2D.distance` in the external primitive layer. -/
def P2D.distance (a b : P2D) : ℝ :=
  Real.sqrt ((b.x - a.x) ^ 2 + (b.y - a.y) ^ 2)

/-- Midpoint of two points, the embedding of `(hole1 + hole2) / 2.0`. -/
def P2D.mid (a b : P2D) : P2D :=
  ⟨(a.x + b.x) / 2, (a.y + b.y) / 2⟩

/-- Shallow embedding of Python `math.atan2(y, x)`. -/
def atan2 (y x : ℝ) : ℝ :=
  if 0 < x then Real.arctan (y / x)
  else if x < 0 then
    (if 0 ≤ y then Real.arctan (y / x) + Real.pi else Real.arctan (y / x) - Real.pi)
  else
    (if 0 < y then Real.pi / 2 else if y < 0 then -(Real.pi / 2) else 0)

/-- The `Circle` feature primitive: name, diameter, tessellation count, center. -/
structure CircleT where
  name : String
  diameter : ℝ
  pointsCount : ℕ
  center : P2D

/-- The `Square` feature primitive: name, dx, dy, center, rotation,
corner radius and corner count (the constructor arguments of `Square`). -/
structure SquareT where
  name : String
  dx : ℝ
  dy : ℝ
  center : P2D
  rotate : ℝ
  cornerRadius : ℝ
  cornerCount : ℕ

/-- A `SimplePolygon` value: either a `Circle`, a `Square`, or a raw locked
point contour (used for the base outline). -/
inductive SP where
  | circle (c : CircleT)
  | square (s : SquareT)
  | contour (name : String) (points : List P2D) (locked : Bool)

/-- Name of a `SimplePolygon`. -/
def SP.nameOf : SP → String
  | .circle c => c.name
  | .square s => s.name
  | .contour n _ _ => n

/-- Boolean test for the `Circle` variant. -/
def SP.isCircleB : SP → Bool
  | .circle _ => true
  | _ => false

/-- Boolean test for the `Square` variant. -/
def SP.isSquareB : SP → Bool
  | .square _ => true
  | _ => false

/-- First (`dx`) dimension of a `Square`, `0` otherwise. -/
def SP.dxOf : SP → ℝ
  | .square s => s.dx
  | _ => 0

/-- Modelled from the spec: `Circle.copy(name, center=...)` produces a copy
with a new name and center, keeping diameter and tessellation count. -/
def CircleT.copy (c : CircleT) (name : String) (center : P2D) : CircleT :=
  ⟨name, c.diameter, c.pointsCount, center⟩

/-- Replace the first occurrence of `old` in a character list by `new`
(the marker rewrite of the mirror transform, structurally recursive so that
concrete names evaluate). -/
def replaceList (old new : List Char) : List Char → List Char
  | [] => []
  | c :: cs =>
    if old ≠ [] ∧ old.isPrefixOf (c :: cs) then new ++ (c :: cs).drop old.length
    else c :: replaceList old new cs

/-- Modelled from the spec: rewrite the side marker `old` to `new` inside a
feature name (`str.replace` restricted to the single marker occurrence). -/
def strReplace (s old new : String) : String :=
  ⟨replaceList old.data new.data s.data⟩

/-- Modelled from the spec: the `MirrorTransform` (`SimplePolygon.y_mirror`)
reflects a feature across the vertical center axis: the x coordinate is
negated, a `Square`'s rotation is correspondingly reflected, and the side
marker in the name is rewritten from `old` to `new`.  The source feature is
not mutated (value semantics). -/
def SP.y_mirror (old new : String) : SP → SP
  | .circle c => .circle ⟨strReplace c.name old new, c.diameter, c.pointsCount,
      ⟨-c.center.x, c.center.y⟩⟩
  | .square s => .square ⟨strReplace s.name old new, s.dx, s.dy, ⟨-s.center.x, s.center.y⟩,
      Real.pi - s.rotate, s.cornerRadius, s.cornerCount⟩
  | .contour n ps lk => .contour (strReplace n old new) (ps.map (fun p => ⟨-p.x, p.y⟩)) lk

/-- Modelled from the spec: `SimplePolygon.x_mirror` reflects a feature across
the horizontal axis (the y coordinate is negated), rewriting the marker. -/
def SP.x_mirror (old new : String) : SP → SP
  | .circle c => .circle ⟨strReplace c.name old new, c.diameter, c.pointsCount,
      ⟨c.center.x, -c.center.y⟩⟩
  | .square s => .square ⟨strReplace s.name old new, s.dx, s.dy, ⟨s.center.x, -s.center.y⟩,
      -s.rotate, s.cornerRadius, s.cornerCount⟩
  | .contour n ps lk => .contour (strReplace n old new) (ps.map (fun p => ⟨p.x, -p.y⟩)) lk

/-- The composite `Polygon` primitive: a named, ordered list of
`SimplePolygon`s together with its lock flag. -/
structure PolygonT where
  name : String
  simplePolygons : List SP
  locked : Bool

/-- Dictionary lookup on an association list (Python `dict` access); entries
are consed on update, so the head is the most recent binding. -/
def dictLookup (c : Char) : List (Char × P2D) → Option P2D
  | [] => none
  | (k, v) :: t => if k = c then some v else dictLookup c t

/-- Option-valued `mapM` over a list: the whole computation fails if any
element fails (a Python loop whose body may raise). -/
def optionMapM (f : α → Option β) : List α → Option (List β)
  | [] => some []
  | a :: as =>
    match f a with
    | none => none
    | some b =>
      match optionMapM f as with
      | none => none
      | some bs => some (b :: bs)

/-! ## Calibration frame (`Romi.__init__`) -/

/-- Inches-to-millimeters conversion factor. -/
def inches2mm : ℝ := 25.4

/-- Top of the axle, from the `.dxf` file, in millimeters. -/
def axel_y_above : ℝ := 2.967165 * inches2mm

/-- Bottom of the axle, from the `.dxf` file, in millimeters. -/
def axel_y_below : ℝ := 2.908110 * inches2mm

/-- Vertical origin offset: midpoint of the two axle measurements. -/
def y_origin_offset : ℝ := (axel_y_above + axel_y_below) / 2.0

/-- Left edge of the upper castor hole, in millimeters. -/
def upper_castor_x_left : ℝ := -3.930756 * inches2mm

/-- Right edge of the upper castor hole, in millimeters. -/
def upper_castor_x_right : ℝ := -3.805256 * inches2mm

/-- Horizontal origin offset: midpoint of the castor hole edges. -/
def x_origin_offset : ℝ := (upper_castor_x_left + upper_castor_x_right) / 2.0

/-- The calibration origin offset stored on the `Romi` instance. -/
def origin_offset : P2D := ⟨x_origin_offset, y_origin_offset⟩

/-! ## Locators (`Romi.hole_locate`, `Romi.rectangle_locate`) -/

/-- Embedding of `Romi.hole_locate`: scale the diagonal pair of corner
measurements from inches to millimeters, take the midpoint minus the origin
offset as center, and the average of the two extents as diameter. -/
def hole_locate (name : String) (x1 y1 x2 y2 : ℝ) : CircleT :=
  let x1' := x1 * inches2mm
  let y1' := y1 * inches2mm
  let x2' := x2 * inches2mm
  let y2' := y2 * inches2mm
  let dx := |x2' - x1'|
  let dy := |y2' - y1'|
  let center_x := (x1' + x2') / 2.0
  let center_y := (y1' + y2') / 2.0
  let diameter := (dx + dy) / 2.0
  ⟨name, diameter, 8, P2D.mk center_x center_y - origin_offset⟩

/-- Embedding of `Romi.rectangle_locate`: scale the corner pair from inches
to millimeters and return the axis-aligned rectangle spanning them, centered
at the midpoint minus the origin offset. -/
def rectangle_locate (name : String) (x1 y1 x2 y2 : ℝ) : SquareT :=
  let x1' := x1 * inches2mm
  let y1' := y1 * inches2mm
  let x2' := x2 * inches2mm
  let y2' := y2 * inches2mm
  let dx := |x2' - x1'|
  let dy := |y2' - y1'|
  ⟨name, dx, dy, P2D.mk ((x1' + x2') / 2.0) ((y1' + y2') / 2.0) - origin_offset, 0, 0, 3⟩

/-! ## Grid pattern engine (`Romi.hex_pattern_get`) -/

/-- Vertical hole pitch of the hex pattern, in millimeters. -/
def hex_dy_pitch : ℝ := 7.50

/-- Horizontal half pitch: `hex_dy_pitch / sqrt(3)` (equilateral relation). -/
def half_hex_dx_pitch : ℝ := hex_dy_pitch / Real.sqrt 3.0

/-- Left edge of the measured reference slot, in millimeters. -/
def slot_left_x : ℝ := -2.437146 * inches2mm

/-- Right edge of the measured reference slot, in millimeters. -/
def slot_right_x : ℝ := -2.346591 * inches2mm

/-- Top edge of the measured reference slot, in millimeters. -/
def slot_top_y : ℝ := 1.339205 * inches2mm

/-- Bottom edge of the measured reference slot, in millimeters. -/
def slot_bottom_y : ℝ := 1.051803 * inches2mm

/-- Horizontal extent of the measured reference slot. -/
def slot_dx : ℝ := slot_right_x - slot_left_x

/-- Vertical extent of the measured reference slot. -/
def slot_dy : ℝ := slot_top_y - slot_bottom_y

/-- Center-to-center slot length derived once from the measured slot. -/
def slot_length : ℝ := slot_dy - slot_dx

/-- Globally fixed slot width derived once from the measured slot. -/
def slot_width : ℝ := slot_dx

/-- Index of the first `'O'` character in a row, if any (`str.find('O')`
restricted to the found case). -/
def firstO : List Char → Option ℕ
  | [] => none
  | c :: cs => if c = 'O' then some 0 else (firstO cs).map (· + 1)

/-- Row and column of the first `'O'` across the pattern rows, scanning rows
top to bottom; `none` when no row contains an `'O'` (the fatal assertion
`"No origin hole found."`). -/
def findOrigin (yi : ℕ) : List String → Option (ℕ × ℕ)
  | [] => none
  | r :: rs =>
    match firstO r.data with
    | some xi => some (yi, xi)
    | none => findOrigin (yi + 1) rs

/-- Upper-left origin of the grid in world coordinates, derived from the
row/column of the `'O'` anchor and the two pitches. -/
def hexUpperLeft (hex_origin : P2D) (yi xi : ℕ) : P2D :=
  ⟨hex_origin.x - (xi : ℝ) * half_hex_dx_pitch, hex_origin.y + (yi : ℝ) * hex_dy_pitch⟩

/-- World position of grid cell `(xi, yi)` relative to the upper-left origin. -/
def hexPos (ulo : P2D) (xi yi : ℕ) : P2D :=
  ⟨ulo.x + (xi : ℝ) * half_hex_dx_pitch, ulo.y - (yi : ℝ) * hex_dy_pitch⟩

/-- Anchor-table entries contributed by one pattern row: one `(character,
position)` pair for every non-`'-'` character. -/
def rowLocPairs (ulo : P2D) (yi : ℕ) : ℕ → List Char → List (Char × P2D)
  | _, [] => []
  | xi, c :: cs =>
    (if c = '-' then [] else [(c, hexPos ulo xi yi)]) ++ rowLocPairs ulo yi (xi + 1) cs

/-- Anchor-table entries of all rows, in scan order (y first, x second). -/
def hexLocPairs (ulo : P2D) : ℕ → List String → List (Char × P2D)
  | _, [] => []
  | yi, r :: rs => rowLocPairs ulo yi 0 r.data ++ hexLocPairs ulo (yi + 1) rs

/-- The anchor table of one pattern run; reversing the scan-ordered pairs
makes `dictLookup` return the most recent binding, matching Python `dict`
overwrite semantics. -/
def hexLocations (ulo : P2D) (rows : List String) : List (Char × P2D) :=
  (hexLocPairs ulo 0 rows).reverse

/-- Display name of a hex hole at grid cell `(xi, yi)`. -/
def hexHoleName (label : String) (xi yi : ℕ) : String :=
  "RIGHT: " ++ (label ++ (" Hex Hole (" ++ (toString xi ++ (", " ++ (toString yi ++ ")")))))

/-- Hole features contributed by one pattern row: a `Circle` for every
uppercase character. -/
def rowHoles (dia : ℝ) (label : String) (ulo : P2D) (yi : ℕ) : ℕ → List Char → List SP
  | _, [] => []
  | xi, c :: cs =>
    (if c.isUpper then [SP.circle ⟨hexHoleName label xi yi, dia, 8, hexPos ulo xi yi⟩] else []) ++
      rowHoles dia label ulo yi (xi + 1) cs

/-- Hole features of all pattern rows, in scan order. -/
def hexHoles (dia : ℝ) (label : String) (ulo : P2D) : ℕ → List String → List SP
  | _, [] => []
  | yi, r :: rs => rowHoles dia label ulo yi 0 r.data ++ hexHoles dia label ulo (yi + 1) rs

/-- Display name of the slot synthesized for a two-letter slot-pair code. -/
def hexSlotName (label : String) (pr : String) : String :=
  "RIGHT: " ++ (label ++ (" Slot \x27" ++ (pr ++ "\x27")))

/-- Character `k` of a two-letter slot-pair code (`slot_pair[k]`). -/
def pairChar (pr : String) (k : ℕ) : Char := pr.data.getD k '-'

/-- Synthesize one slot from a two-letter slot-pair code: look up both named
anchors (a missing anchor is a fatal dictionary error), take the midpoint as
center, the angle of the joining line as rotation, the fixed measured
`slot_length` and `slot_width` as dimensions, and half the slot width as
corner radius. -/
def slotFromPair (locs : List (Char × P2D)) (label : String) (pr : String) : Option SP :=
  (dictLookup (pairChar pr 0) locs).bind (fun hole1 =>
    (dictLookup (pairChar pr 1) locs).bind (fun hole2 =>
      some (SP.square ⟨hexSlotName label pr, slot_length, slot_width, P2D.mid hole1 hole2,
        atan2 (hole1.y - hole2.y) (hole1.x - hole2.x), slot_width / 2.0, 8⟩)))

/-- Embedding of `Romi.hex_pattern_get`: resolve the `'O'` origin (fatal when
absent), build the anchor table and the hole features from the pattern rows,
then synthesize one slot per slot-pair code.  Returns the feature list (holes
then slots, each in scan order) together with the anchor table. -/
def hex_pattern_get (pattern_rows : List String) (slot_pairs : List String)
    (hex_origin : P2D) (hole_diameter : ℝ) (label : String) :
    Option (List SP × List (Char × P2D)) :=
  (findOrigin 0 pattern_rows).bind (fun yx =>
    (optionMapM
        (slotFromPair (hexLocations (hexUpperLeft hex_origin yx.1 yx.2) pattern_rows) label)
        slot_pairs).bind (fun slots =>
      some (hexHoles hole_diameter label (hexUpperLeft hex_origin yx.1 yx.2) 0 pattern_rows ++
          slots,
        hexLocations (hexUpperLeft hex_origin yx.1 yx.2) pattern_rows)))

/-! ## Hex pattern instantiations (`Romi.upper_hex_polygons_get`,
`Romi.lower_hex_polygons_table_get`) -/

/-- The measured upper hex reference hole. -/
def upper_hex_hole : CircleT :=
  hole_locate "Upper Hex Hole" (-2.749535) 5.441567 (-2.629075) 5.316441

/-- Upper hex pattern rows; `'O'` marks the reference hole. -/
def upper_pattern_rows : List String :=
  ["a------", "-A-O---", "b-B-C-c", "---d---"]

/-- Upper hex slot-pair codes. -/
def upper_slot_pairs : List String := ["aO", "bO", "dO", "cO"]

/-- Embedding of `Romi.upper_hex_polygons_get`: run the grid engine on the
upper pattern and return only the feature list. -/
def upper_hex_polygons_get : Option (List SP) :=
  (hex_pattern_get upper_pattern_rows upper_slot_pairs upper_hex_hole.center
    upper_hex_hole.diameter "UPPER").map Prod.fst

/-- The measured lower hex reference hole. -/
def lower_hex_hole : CircleT :=
  hole_locate "Lower Hex Hole" (-2.454646) 1.553776 (-2.329091) 1.428650

/-- Lower hex pattern rows; `'O'` marks the reference hole. -/
def lower_pattern_rows : List String :=
  ["---A-B-C-D-", "----E-O-F-G", "---a-H-I-J-", "----K-L-M--", "---N-Q-----", "R-S---------"]

/-- Lower hex slot-pair codes (`"AO:OD:...".split(':')`). -/
def lower_slot_pairs : List String :=
  ["AO", "OD", "Aa", "aO", "JO", "DJ", "OL", "aL", "LJ", "aN", "NL", "RN"]

/-- Embedding of `Romi.lower_hex_polygons_table_get`: run the grid engine on
the lower pattern, returning features and anchor table. -/
def lower_hex_polygons_table_get : Option (List SP × List (Char × P2D)) :=
  hex_pattern_get lower_pattern_rows lower_slot_pairs lower_hex_hole.center
    lower_hex_hole.diameter "LOWER"

/-! ## Line of holes (`Romi.line_hole_polygons_get`) -/

/-- The measured smallest hole at the end of the bottom line of holes. -/
def line_small_hole : CircleT :=
  hole_locate "Small Hole" (-3.289535) 0.256524 (-3.198980) 0.165984

/-- Embedding of `Romi.line_hole_polygons_get`: index the `'S'` and `'Q'`
anchors of the lower hex table (a missing anchor is a fatal dictionary
error), then place holes along the `S`-to-`Q` line skipping every index
congruent to 1 mod 3. -/
def line_hole_polygons_get (lower_hex_table : List (Char × P2D)) : Option (List SP) :=
  (dictLookup 'S' lower_hex_table).bind (fun s_center =>
    (dictLookup 'Q' lower_hex_table).bind (fun q_center =>
      some ((List.range 9).flatMap (fun i =>
        if i % 3 ≠ 1 then
          [SP.circle ⟨"RIGHT: Vector Hole " ++ toString i, line_small_hole.diameter, 8,
            ⟨s_center.x + ((i : ℝ) - 1) * (q_center - s_center).x / 3.0,
             s_center.y + ((i : ℝ) - 1) * (q_center - s_center).y / 3.0⟩⟩]
        else []))))

/-! ## Lower arc generator (`Romi.lower_arc_holes_rectangles_get`) -/

/-- The measured hole at the start (wheel end) of the lower arc. -/
def lower_start : CircleT :=
  hole_locate "Lower Start Hole" (-1.483063) 1.348929 (-1.357508) 1.223803

/-- The measured hole at the far end of the lower arc (the small size). -/
def lower_end : CircleT :=
  hole_locate "Lower End Hole" (-3.144020) 0.125287 (-3.053465) 0.034732

/-- Start angle of the lower arc. -/
def lower_arc_start_angle : ℝ := atan2 lower_start.center.y lower_start.center.x

/-- End angle of the lower arc. -/
def lower_arc_end_angle : ℝ := atan2 lower_end.center.y lower_end.center.x

/-- Radius of the lower hole arc: distance from the origin to the start hole. -/
def lower_hole_radius : ℝ := P2D.distance ⟨0, 0⟩ lower_start.center

/-- Measured corner of a large lower-arc rectangle. -/
def lower_large_upper_left_corner : P2D :=
  P2D.mk (-1.248201 * inches2mm) (1.259484 * inches2mm) - origin_offset

/-- Measured corner of a large lower-arc rectangle. -/
def lower_large_lower_left_corner : P2D :=
  P2D.mk (-1.33137 * inches2mm) (1.136248 * inches2mm) - origin_offset

/-- Measured corner of a large lower-arc rectangle. -/
def lower_large_upper_right_corner : P2D :=
  P2D.mk (-1.205772 * inches2mm) (1.230858 * inches2mm) - origin_offset

/-- Length of a large lower-arc rectangle. -/
def lower_large_rectangle_length : ℝ :=
  P2D.distance lower_large_upper_left_corner lower_large_lower_left_corner

/-- Common width of the lower-arc rectangles. -/
def lower_rectangle_width : ℝ :=
  P2D.distance lower_large_upper_left_corner lower_large_upper_right_corner

/-- Center of the measured lower-arc rectangle. -/
def lower_rectangle_center : P2D :=
  P2D.mid lower_large_upper_right_corner lower_large_lower_left_corner

/-- Radius of the lower rectangle arc. -/
def lower_rectangle_radius : ℝ := P2D.distance ⟨0, 0⟩ lower_rectangle_center

/-- Measured corner of a small lower-arc rectangle. -/
def lower_small_upper_left_corner : P2D :=
  P2D.mk (-1.368228 * inches2mm) (1.081638 * inches2mm) - origin_offset

/-- Measured corner of a small lower-arc rectangle. -/
def lower_small_lower_left_corner : P2D :=
  P2D.mk (-1.431575 * inches2mm) (0.987760 * inches2mm) - origin_offset

/-- Length of a small lower-arc rectangle. -/
def lower_small_rectangle_length : ℝ :=
  P2D.distance lower_small_upper_left_corner lower_small_lower_left_corner

/-- The lower-arc repeat count `N`. -/
def lower_holes_count : ℕ := 12

/-- Angular step of the lower arc: `(end - start) / (N - 1)`. -/
def lower_delta_angle : ℝ :=
  (lower_arc_end_angle - lower_arc_start_angle) / ((lower_holes_count : ℝ) - 1)

/-- Angle of lower-arc position `i`. -/
def lowerHoleAngle (i : ℕ) : ℝ := lower_arc_start_angle + (i : ℝ) * lower_delta_angle

/-- The lower-arc hole at position `i`: large diameter when `i` is divisible
by 3, small otherwise, on the hole-arc radius. -/
def lowerHole (i : ℕ) : CircleT :=
  ⟨"RIGHT: Lower hole " ++ toString i,
   (if i % 3 = 0 then lower_start.diameter else lower_end.diameter), 8,
   ⟨lower_hole_radius * Real.cos (lowerHoleAngle i),
    lower_hole_radius * Real.sin (lowerHoleAngle i)⟩⟩

/-- The lower-arc rectangle at position `i`: large length when `i` is
divisible by 3, small otherwise, on the rectangle-arc radius. -/
def lowerRect (i : ℕ) : SquareT :=
  ⟨"RIGHT: Lower left Rectangle " ++ toString i,
   lower_rectangle_width,
   (if i % 3 = 0 then lower_large_rectangle_length else lower_small_rectangle_length),
   ⟨lower_rectangle_radius * Real.cos (lowerHoleAngle i),
    lower_rectangle_radius * Real.sin (lowerHoleAngle i)⟩,
   lowerHoleAngle i, 0, 3⟩

/-- Embedding of `Romi.lower_arc_holes_rectangles_get`: iterate over
`N + 3 = 15` angular positions, appending the hole only for the first
`N + 1 = 13` positions and the rectangle at every position. -/
def lower_arc_holes_rectangles_get : List SP :=
  (List.range (lower_holes_count + 3)).flatMap (fun i =>
    (if i < lower_holes_count + 1 then [SP.circle (lowerHole i)] else []) ++
      [SP.square (lowerRect i)])

/-! ## Upper arc generator (`Romi.upper_arc_holes_rectangles_get`) -/

/-- The measured hole at the start (wheel end) of the upper arc. -/
def upper_start : CircleT :=
  hole_locate "Upper Start Hole" (-1.483063) 4.651469 (-1.357508) 4.526346

/-- The measured hole at the far end of the upper arc (the small size). -/
def upper_end : CircleT :=
  hole_locate "Upper End Hole" (-3.14402) 5.840524 (-3.053465) 5.749969

/-- Start angle of the upper arc. -/
def upper_arc_start_angle : ℝ := atan2 upper_start.center.y upper_start.center.x

/-- End angle of the upper arc. -/
def upper_arc_end_angle : ℝ := atan2 upper_end.center.y upper_end.center.x

/-- Radius of the upper hole arc. -/
def upper_hole_radius : ℝ := P2D.distance ⟨0, 0⟩ upper_start.center

/-- Measured corner of a large upper-arc rectangle. -/
def upper_large_upper_inner_corner : P2D :=
  P2D.mk (-1.33137 * inches2mm) (4.739012 * inches2mm) - origin_offset

/-- Measured corner of a large upper-arc rectangle. -/
def upper_large_lower_inner_corner : P2D :=
  P2D.mk (-1.248201 * inches2mm) (4.615776 * inches2mm) - origin_offset

/-- Measured corner of a large upper-arc rectangle. -/
def upper_large_lower_outer_corner : P2D :=
  P2D.mk (-1.205772 * inches2mm) (4.644402 * inches2mm) - origin_offset

/-- Length of a large upper-arc rectangle. -/
def upper_large_rectangle_length : ℝ :=
  P2D.distance upper_large_upper_inner_corner upper_large_lower_inner_corner

/-- Common width of the upper-arc rectangles. -/
def upper_rectangle_width : ℝ :=
  P2D.distance upper_large_lower_inner_corner upper_large_lower_outer_corner

/-- Center of the measured upper-arc rectangle. -/
def upper_rectangle_center : P2D :=
  P2D.mid upper_large_upper_inner_corner upper_large_lower_outer_corner

/-- Radius of the upper rectangle arc. -/
def upper_rectangle_radius : ℝ := P2D.distance ⟨0, 0⟩ upper_rectangle_center

/-- Measured corner of a small upper-arc rectangle. -/
def upper_small_upper_inner_corner : P2D :=
  P2D.mk (-1.431575 * inches2mm) (4.887512 * inches2mm) - origin_offset

/-- Measured corner of a small upper-arc rectangle. -/
def upper_small_lower_inner_corner : P2D :=
  P2D.mk (-1.368228 * inches2mm) (4.793638 * inches2mm) - origin_offset

/-- Length of a small upper-arc rectangle. -/
def upper_small_rectangle_length : ℝ :=
  P2D.distance upper_small_upper_inner_corner upper_small_lower_inner_corner

/-- The upper-arc repeat count `N`. -/
def upper_holes_count : ℕ := 12

/-- Angular step of the upper arc: `(end - start) / (N - 1)`. -/
def upper_delta_angle : ℝ :=
  (upper_arc_end_angle - upper_arc_start_angle) / ((upper_holes_count : ℝ) - 1)

/-- Angle of upper-arc position `i`. -/
def upperHoleAngle (i : ℕ) : ℝ := upper_arc_start_angle + (i : ℝ) * upper_delta_angle

/-- The excluded hole indices of the upper arc, a hard-coded physical fact. -/
def upper_skip_indices : List ℕ := [2, 3, 12, 13]

/-- The upper-arc hole at position `i`. -/
def upperHole (i : ℕ) : CircleT :=
  ⟨"RIGHT: Upper hole " ++ toString i,
   (if i % 3 = 0 then upper_start.diameter else upper_end.diameter), 8,
   ⟨upper_hole_radius * Real.cos (upperHoleAngle i),
    upper_hole_radius * Real.sin (upperHoleAngle i)⟩⟩

/-- The upper-arc rectangle at position `i`. -/
def upperRect (i : ℕ) : SquareT :=
  ⟨"RIGHT: Upper Right Rectangle " ++ toString i,
   upper_rectangle_width,
   (if i % 3 = 0 then upper_large_rectangle_length else upper_small_rectangle_length),
   ⟨upper_rectangle_radius * Real.cos (upperHoleAngle i),
    upper_rectangle_radius * Real.sin (upperHoleAngle i)⟩,
   upperHoleAngle i, 0, 3⟩

/-- Embedding of `Romi.upper_arc_holes_rectangles_get`: iterate over
`N + 1 = 13` angular positions, appending the hole at every position whose
index is not in the excluded set and the rectangle at every position. -/
def upper_arc_holes_rectangles_get : List SP :=
  (List.range (upper_holes_count + 1)).flatMap (fun i =>
    (if i ∈ upper_skip_indices then [] else [SP.circle (upperHole i)]) ++
      [SP.square (upperRect i)])

/-! ## Miscellaneous holes (`Romi.miscellaneous_holes_get`) -/

/-- Embedding of `Romi.miscellaneous_holes_get`: the seven individually
measured holes around the lower hex pattern. -/
def miscellaneous_holes_get : List CircleT :=
  [hole_locate "RIGHT: Misc Small Lower Left" (-3.119047) 0.658110 (-3.041756) 0.74865,
   hole_locate "RIGHT: Misc Small Upper Left" (-3.028492) 1.642358 (-3.119047) 1.732913,
   hole_locate "RIGHT: Misc Small Upper Right -30deg" (-1.755228) 1.642358 (-1.664673) 1.732913,
   hole_locate "RIGHT: Misc Small Upper Right 30deg" (-1.755228) 1.839205 (-1.664673) 1.929760,
   hole_locate "RIGHT: Misc Small Upper Right 90deg" (-1.925717) 1.937638 (-1.835161) 2.028177,
   hole_locate "RIGHT: Misc Small Upper Right 120deg" (-2.096189) 1.839205 (-2.005634) 1.929760,
   hole_locate "RIGHT: Misc Large Upper Right" (-1.84402) 2.252594 (-1.71848) 2.127469]

/-! ## Vertical rectangles (`Romi.vertical_rectangles_get`) -/

/-- The four measured upper wheel-well rectangles. -/
def upper_vertical_rectangles : List SquareT :=
  [rectangle_locate "RIGHT: UPPER: Rectangle 0" (-1.511965) 3.569984 (-1.460783) 3.683232,
   rectangle_locate "RIGHT: UPPER: Rectangle 1" (-1.511965) 3.749122 (-1.460783) 3.897803,
   rectangle_locate "RIGHT: UPPER: Rectangle 2" (-1.511965) 3.963677 (-1.460783) 4.076929,
   rectangle_locate "RIGHT: UPPER: Rectangle 3" (-1.511965) 4.142815 (-1.460783) 4.291496]

/-- Embedding of `Romi.vertical_rectangles_get`: the four measured upper
rectangles followed by their `x_mirror("UPPER:", "LOWER:")` reflections. -/
def vertical_rectangles_get : List SP :=
  upper_vertical_rectangles.map SP.square ++
    upper_vertical_rectangles.map (fun r => SP.x_mirror "UPPER:" "LOWER:" (SP.square r))

/-! ## Battery compartment (`Romi.battery_polygons_get`) -/

/-- The battery reference hole all battery holes are placed relative to. -/
def battery_reference_hole : CircleT :=
  hole_locate "ZILCH: Battery Hole" (-3.913146) 3.376610 (-3.822591) 3.286051

/-- Vertical offsets of the three lower battery hole rows. -/
def lower_battery_y_offsets : List ℝ := [0.0, -12.3, -12.3 - 12.3]

/-- Population patterns of the three lower battery hole rows. -/
def lower_battery_patterns : List String :=
  ["*-**O**-*", "*-*****-*", "*-*****-*"]

/-- Horizontal pitch of the battery holes, in millimeters. -/
def hole_dx_pitch : ℝ := 10

/-- The lower battery holes: 9 columns by 3 patterned rows, iterated column
first, populating only non-`'-'` pattern positions. -/
def battery_lower_holes : List SP :=
  (List.range 9).flatMap (fun x_index =>
    lower_battery_patterns.enum.flatMap (fun (y_index, pat) =>
      if pat.data.getD x_index '-' ≠ '-' then
        [SP.circle (battery_reference_hole.copy
          ("BATTERY: Lower Hole (" ++ (toString ((2 : ℤ) - (x_index : ℤ)) ++ (", " ++ (toString y_index ++ ")"))))
          ⟨-4.0 * hole_dx_pitch + (x_index : ℝ) * hole_dx_pitch,
           battery_reference_hole.center.y + lower_battery_y_offsets.getD y_index 0⟩)]
      else []))

/-- Vertical offsets of the three upper battery hole rows. -/
def upper_battery_y_offsets : List ℝ := [7.0, 7.0 + 12.3, 7.0 + 12.3 + 12.3]

/-- The upper battery holes: 10 columns by 3 rows, all populated. -/
def battery_upper_holes : List SP :=
  (List.range 10).flatMap (fun x_index =>
    (List.range 3).flatMap (fun y_index =>
      [SP.circle (battery_reference_hole.copy
        ("BATTERY: Upper Hole (" ++ (toString ((2 : ℤ) - (x_index : ℤ)) ++ (", " ++ (toString y_index ++ ")"))))
        ⟨-4.5 * hole_dx_pitch + (x_index : ℝ) * hole_dx_pitch,
         battery_reference_hole.center.y + upper_battery_y_offsets.getD y_index 0⟩)]))

/-- The six rectangular battery slots. -/
def battery_slot_polygons : List SP :=
  [SP.square (rectangle_locate "BATTERY: Upper Left Battery Slot"
     (-5.550937) 4.252594 (-4.074563) 4.473067),
   SP.square (rectangle_locate "BATTERY: Upper Right Battery Slot"
     (-3.621799) 4.252594 (-2.145425) 4.473067),
   SP.square (rectangle_locate "BATTERY: Lower Left Battery Slot"
     (-5.590311) 3.705346 (-4.113925) 3.925815),
   SP.square (rectangle_locate "BATTERY Lower Right Battery Slot"
     (-3.661173) 3.705346 (-2.184799) 3.925815),
   SP.square (rectangle_locate "BATTERY: Upper Center Battery Slot"
     (-4.58637) 3.012429 (-3.109992) 3.232913),
   SP.square (rectangle_locate "BATTERY: Lower Center Battery Slot"
     (-4.625744) 2.465193 (-3.149354) 2.685665)]

/-- The seven battery case cutouts. -/
def battery_cutout_polygons : List SP :=
  [SP.square (rectangle_locate "BATTERY: Upper Outer Left Cutout"
     (-5.984008) 4.74865 (-5.302909) 4.965193),
   SP.square (rectangle_locate "BATTERY: Upper Inner Left Cutout"
     (-5.23598) 4.669913 (-4.861965) 4.858886),
   SP.square (rectangle_locate "BATTERY: Upper Inner Right Cutout"
     (-2.873772) 4.669913 (-2.499756) 4.858886),
   SP.square (rectangle_locate "BATTERY: Upper Outer Right Cutout"
     (-2.432827) 4.74865 (-1.751728) 4.965193),
   SP.square (rectangle_locate "BATTERY: Lower Left Cutout"
     (-5.572591) 1.939594 (-4.655272) 2.189594),
   SP.square (rectangle_locate "BATTERY: Lower Center Cutout"
     (-4.340311) 2.032122 (-3.395425) 2.189594),
   SP.square (rectangle_locate "BATTERY: Lower Right Cutout"
     (-3.080465) 1.939594 (-2.163146) 2.189594)]

/-- First encoder slot x coordinate. -/
def encoder_x1 : ℝ := -2.031646 * inches2mm - origin_offset.x - 8.85

/-- Encoder slot width. -/
def encoder_dx : ℝ := 2.5

/-- Second encoder slot x coordinate. -/
def encoder_x2 : ℝ := encoder_x1 - encoder_dx

/-- Third encoder slot x coordinate. -/
def encoder_x3 : ℝ := encoder_x2 - 1.65

/-- Fourth encoder slot x coordinate. -/
def encoder_x4 : ℝ := encoder_x3 - encoder_dx

/-- Encoder slot height. -/
def encoder_dy : ℝ := 0.70 * inches2mm

/-- The right outer encoder slot. -/
def outer_encoder_slot : SquareT :=
  ⟨"RIGHT: Outer Encoder Slot", encoder_dx, encoder_dy,
   ⟨(encoder_x1 + encoder_x2) / 2.0, 0.0⟩, 0, encoder_dx / 2.0, 3⟩

/-- The right inner encoder slot. -/
def inner_encoder_slot : SquareT :=
  ⟨"RIGHT: Inner Encoder Slot", encoder_dx, encoder_dy,
   ⟨(encoder_x3 + encoder_x4) / 2.0, 0.0⟩, 0, encoder_dx / 2.0, 3⟩

/-- The four encoder slots: two measured on the right side and two produced
by mirroring them to the left side inside the battery group itself. -/
def battery_encoder_slots : List SP :=
  [SP.square outer_encoder_slot,
   SP.y_mirror "RIGHT:" "LEFT:" (SP.square outer_encoder_slot),
   SP.square inner_encoder_slot,
   SP.y_mirror "RIGHT:" "LEFT:" (SP.square inner_encoder_slot)]

/-- Embedding of `Romi.battery_polygons_get`: lower holes, upper holes,
battery slots, cutouts, and encoder slots, appended in source order. -/
def battery_polygons_get : List SP :=
  battery_lower_holes ++ battery_upper_holes ++ battery_slot_polygons ++
    battery_cutout_polygons ++ battery_encoder_slots

/-! ## Outline builder (`Romi.base_outline_polygon_get`) -/

/-- Nominal base radius: half the 163 mm diameter. -/
def outline_radius : ℝ := 163.0 / 2.0

/-- Half the wheel well width (125 mm). -/
def half_wheel_well_dx : ℝ := 125.0 / 2.0

/-- Half the wheel well height (72 mm). -/
def half_wheel_well_dy : ℝ := 72.0 / 2.0

/-- Wheel-well half angle: `asin(half_wheel_well_dy / radius)`. -/
def wheel_well_angle : ℝ := Real.arcsin (half_wheel_well_dy / outline_radius)

/-- Upper-right wheel well corner, on the circle of the nominal radius. -/
def wheel_well_corner : P2D :=
  ⟨outline_radius * Real.cos wheel_well_angle, outline_radius * Real.sin wheel_well_angle⟩

/-- Modelled from the spec: `SimplePolygon.arc_append(center, radius,
start_angle, end_angle, segment_count)` appends `segment_count` points evenly
spaced in angle from `start_angle` to `end_angle` on the circle of the given
center and radius. -/
def arc_append (center : P2D) (radius start_angle end_angle : ℝ) (count : ℕ) : List P2D :=
  (List.range count).map (fun i =>
    ⟨center.x + radius * Real.cos (start_angle +
       (i : ℝ) * ((end_angle - start_angle) / ((count : ℝ) - 1))),
     center.y + radius * Real.sin (start_angle +
       (i : ℝ) * ((end_angle - start_angle) / ((count : ℝ) - 1)))⟩)

/-- Tessellation count of each outline arc. -/
def arc_count : ℕ := 21

/-- The upper outline arc, from `wheel_well_angle` to `pi - wheel_well_angle`. -/
def outline_upper_arc : List P2D :=
  arc_append ⟨0, 0⟩ outline_radius wheel_well_angle (Real.pi - wheel_well_angle) arc_count

/-- The lower outline arc: the upper arc angles offset by `pi`. -/
def outline_lower_arc : List P2D :=
  arc_append ⟨0, 0⟩ outline_radius (wheel_well_angle + Real.pi)
    ((Real.pi - wheel_well_angle) + Real.pi) arc_count

/-- The ordered outline points: upper arc, left wheel well, lower arc, right
wheel well. -/
def outline_points : List P2D :=
  outline_upper_arc ++
    [⟨-half_wheel_well_dx, half_wheel_well_dy⟩, ⟨-half_wheel_well_dx, -half_wheel_well_dy⟩] ++
    outline_lower_arc ++
    [⟨half_wheel_well_dx, -half_wheel_well_dy⟩, ⟨half_wheel_well_dx, half_wheel_well_dy⟩]

/-- Embedding of `Romi.base_outline_polygon_get`: verify the wheel-well
corner sits on the nominal radius (tolerance 1e-5), build the outline, check
the point-count invariant `2*21 + 4`, and return the locked contour; a failed
assertion aborts. -/
def base_outline_polygon_get : Option SP :=
  if |outline_radius - P2D.distance ⟨0, 0⟩ wheel_well_corner| < 0.00001 then
    if outline_points.length = 2 * arc_count + 4 then
      some (SP.contour "Romi Base Exterior" outline_points true)
    else none
  else none

/-! ## Composite assembler (`Romi.base_scad_polygon_generate`) -/

/-- The `mirrorable_polygons` list of `Romi.base_scad_polygon_generate`: the
right-side feature groups in source order (upper hex, lower hex, line holes,
lower arc, upper arc, miscellaneous holes, vertical rectangles). -/
def mirrorable_polygons_of (upper_hex lower_hex line_holes : List SP) : List SP :=
  upper_hex ++ lower_hex ++ line_holes ++ lower_arc_holes_rectangles_get ++
    upper_arc_holes_rectangles_get ++ miscellaneous_holes_get.map SP.circle ++
    vertical_rectangles_get

/-- Embedding of `Romi.base_scad_polygon_generate` (continued): bind the four
fallible feature groups, then assemble outline, battery, mirrorable and
mirrored features into one locked `Polygon`. -/
def base_scad_polygon_generate : Option PolygonT :=
  base_outline_polygon_get.bind (fun base_outline =>
    upper_hex_polygons_get.bind (fun upper_hex =>
      lower_hex_polygons_table_get.bind (fun lower_pair =>
        (line_hole_polygons_get lower_pair.2).bind (fun line_holes =>
          some ⟨"Romi Base ScadPolygon",
            base_outline ::
              (battery_polygons_get ++ mirrorable_polygons_of upper_hex lower_pair.1 line_holes ++
                (mirrorable_polygons_of upper_hex lower_pair.1 line_holes).map
                  (SP.y_mirror "RIGHT:" "LEFT:")),
            true⟩))))

/-! ## Helper lemmas -/

/-- Character of the pattern at row `yi`, column `xi`, if both are in range. -/
def charAt (rows : List String) (yi xi : ℕ) : Option Char :=
  (rows[yi]?).bind (fun r => r.data[xi]?)

/-- A feature name carries the right-side marker when it extends `"RIGHT: "`. -/
def startsWithRight (s : String) : Prop := ∃ rest, s = "RIGHT: " ++ rest

theorem startsWithRight_append (pre post s : String) (h : pre = "RIGHT: " ++ post) :
    startsWithRight (pre ++ s) := by
  exact ⟨post ++ s, by rw [h, String.append_assoc]⟩

theorem dictLookup_isSome {c : Char} {l : List (Char × P2D)} :
    (dictLookup c l).isSome = true ↔ c ∈ l.map Prod.fst := by
  induction l with
  | nil => simp [dictLookup]
  | cons p t ih =>
    obtain ⟨k, v⟩ := p
    by_cases hk : k = c
    · subst hk
      simp [dictLookup]
    · simp [dictLookup, hk, ih, Ne.symm hk]

theorem rowLocPairs_keys {c : Char} (ulo : P2D) (yi : ℕ) :
    ∀ (xi : ℕ) (cs : List Char),
      c ∈ (rowLocPairs ulo yi xi cs).map Prod.fst ↔ (c ≠ '-' ∧ c ∈ cs) := by
  intro xi cs
  induction cs generalizing xi with
  | nil => simp [rowLocPairs]
  | cons a as ih =>
    by_cases ha : a = '-'
    · subst ha
      rw [rowLocPairs, if_pos rfl, List.nil_append, ih]
      constructor
      · rintro ⟨hne, hmem⟩
        exact ⟨hne, List.mem_cons_of_mem _ hmem⟩
      · rintro ⟨hne, hmem⟩
        rcases List.mem_cons.mp hmem with h | h
        · exact absurd h hne
        · exact ⟨hne, h⟩
    · rw [rowLocPairs, if_neg ha, List.singleton_append]
      simp only [List.map_cons, List.mem_cons, ih]
      constructor
      · rintro (h | ⟨hne, hmem⟩)
        · subst h
          exact ⟨ha, Or.inl rfl⟩
        · exact ⟨hne, Or.inr hmem⟩
      · rintro ⟨hne, h | hmem⟩
        · exact Or.inl h
        · exact Or.inr ⟨hne, hmem⟩

theorem hexLocPairs_keys {c : Char} (ulo : P2D) :
    ∀ (y0 : ℕ) (rows : List String),
      c ∈ (hexLocPairs ulo y0 rows).map Prod.fst ↔ (c ≠ '-' ∧ ∃ r ∈ rows, c ∈ r.data) := by
  intro y0 rows
  induction rows generalizing y0 with
  | nil => simp [hexLocPairs]
  | cons r rs ih =>
    simp only [hexLocPairs, List.map_append, List.mem_append, rowLocPairs_keys, ih,
      List.mem_cons]
    constructor
    · rintro (⟨hne, hmem⟩ | ⟨hne, s, hs, hmem⟩)
      · exact ⟨hne, r, Or.inl rfl, hmem⟩
      · exact ⟨hne, s, Or.inr hs, hmem⟩
    · rintro ⟨hne, s, (hs | hs), hmem⟩
      · exact Or.inl ⟨hne, hs ▸ hmem⟩
      · exact Or.inr ⟨hne, s, hs, hmem⟩

theorem hexLocations_keys {c : Char} (ulo : P2D) (rows : List String) :
    (dictLookup c (hexLocations ulo rows)).isSome = true ↔
      (c ≠ '-' ∧ ∃ r ∈ rows, c ∈ r.data) := by
  rw [dictLookup_isSome, hexLocations, List.map_reverse, List.mem_reverse]
  exact hexLocPairs_keys ulo 0 rows

theorem rowLocPairs_values {c : Char} {p : P2D} (ulo : P2D) (yi : ℕ) :
    ∀ (xi : ℕ) (cs : List Char),
      (c, p) ∈ rowLocPairs ulo yi xi cs →
        ∃ j, cs[j]? = some c ∧ p = hexPos ulo (xi + j) yi := by
  intro xi cs
  induction cs generalizing xi with
  | nil => simp [rowLocPairs]
  | cons a as ih =>
    intro hmem
    by_cases ha : a = '-'
    · subst ha
      rw [rowLocPairs, if_pos rfl, List.nil_append] at hmem
      obtain ⟨j, hj, hp⟩ := ih (xi + 1) hmem
      have hx : xi + 1 + j = xi + (j + 1) := by omega
      exact ⟨j + 1, by simpa using hj, by rw [hp, hx]⟩
    · rw [rowLocPairs, if_neg ha, List.singleton_append] at hmem
      rcases List.mem_cons.mp hmem with h | hmem
      · injection h with hc hp
        refine ⟨0, by simp [hc], by simpa using hp⟩
      · obtain ⟨j, hj, hp⟩ := ih (xi + 1) hmem
        have hx : xi + 1 + j = xi + (j + 1) := by omega
        exact ⟨j + 1, by simpa using hj, by rw [hp, hx]⟩

theorem hexLocPairs_values {c : Char} {p : P2D} (ulo : P2D) :
    ∀ (y0 : ℕ) (rows : List String),
      (c, p) ∈ hexLocPairs ulo y0 rows →
        ∃ i j, charAt rows i j = some c ∧ p = hexPos ulo j (y0 + i) := by
  intro y0 rows
  induction rows generalizing y0 with
  | nil => simp [hexLocPairs]
  | cons r rs ih =>
    intro hmem
    rcases List.mem_append.mp hmem with h | h
    · obtain ⟨j, hj, hp⟩ := rowLocPairs_values ulo y0 0 r.data h
      exact ⟨0, j, by simpa [charAt] using hj, by simpa using hp⟩
    · obtain ⟨i, j, hij, hp⟩ := ih (y0 + 1) h
      have hy : y0 + 1 + i = y0 + (i + 1) := by omega
      exact ⟨i + 1, j, by simpa [charAt] using hij, by rw [hp, hy]⟩

theorem rowHoles_mem {sp : SP} (dia : ℝ) (lab : String) (ulo : P2D) (yi : ℕ) :
    ∀ (xi : ℕ) (cs : List Char),
      sp ∈ rowHoles dia lab ulo yi xi cs ↔
        ∃ j c, cs[j]? = some c ∧ c.isUpper = true ∧
          sp = SP.circle ⟨hexHoleName lab (xi + j) yi, dia, 8, hexPos ulo (xi + j) yi⟩ := by
  intro xi cs
  induction cs generalizing xi with
  | nil => simp [rowHoles]
  | cons a as ih =>
    by_cases hu : a.isUpper
    · rw [rowHoles, if_pos hu, List.singleton_append]
      constructor
      · intro hmem
        rcases List.mem_cons.mp hmem with h | hmem
        · exact ⟨0, a, by simp, hu, by simpa using h⟩
        · obtain ⟨j, c, hj, hcu, hsp⟩ := (ih (xi + 1)).mp hmem
          have hx : xi + 1 + j = xi + (j + 1) := by omega
          exact ⟨j + 1, c, by simpa using hj, hcu, by rw [hsp, hx]⟩
      · rintro ⟨j, c, hj, hcu, hsp⟩
        cases j with
        | zero =>
          have hac : a = c := by simpa using hj
          subst hac
          exact List.mem_cons.mpr (Or.inl (by simpa using hsp))
        | succ j =>
          have hx : xi + (j + 1) = xi + 1 + j := by omega
          exact List.mem_cons_of_mem _ ((ih (xi + 1)).mpr
            ⟨j, c, by simpa using hj, hcu, by rw [hsp, hx]⟩)
    · rw [rowHoles, if_neg hu, List.nil_append]
      constructor
      · intro hmem
        obtain ⟨j, c, hj, hcu, hsp⟩ := (ih (xi + 1)).mp hmem
        have hx : xi + 1 + j = xi + (j + 1) := by omega
        exact ⟨j + 1, c, by simpa using hj, hcu, by rw [hsp, hx]⟩
      · rintro ⟨j, c, hj, hcu, hsp⟩
        cases j with
        | zero =>
          have hac : a = c := by simpa using hj
          exact absurd (hac ▸ hcu) (by simpa using hu)
        | succ j =>
          have hx : xi + (j + 1) = xi + 1 + j := by omega
          exact (ih (xi + 1)).mpr ⟨j, c, by simpa using hj, hcu, by rw [hsp, hx]⟩

theorem hexHoles_mem {sp : SP} (dia : ℝ) (lab : String) (ulo : P2D) :
    ∀ (y0 : ℕ) (rows : List String),
      sp ∈ hexHoles dia lab ulo y0 rows ↔
        ∃ i j c, charAt rows i j = some c ∧ c.isUpper = true ∧
          sp = SP.circle ⟨hexHoleName lab j (y0 + i), dia, 8, hexPos ulo j (y0 + i)⟩ := by
  intro y0 rows
  induction rows generalizing y0 with
  | nil => simp [hexHoles, charAt]
  | cons r rs ih =>
    rw [hexHoles]
    constructor
    · intro hmem
      rcases List.mem_append.mp hmem with h | h
      · obtain ⟨j, c, hj, hcu, hsp⟩ := (rowHoles_mem dia lab ulo y0 0 r.data).mp h
        exact ⟨0, j, c, by simpa [charAt] using hj, hcu, by simpa using hsp⟩
      · obtain ⟨i, j, c, hij, hcu, hsp⟩ := (ih (y0 + 1)).mp h
        have hy : y0 + 1 + i = y0 + (i + 1) := by omega
        exact ⟨i + 1, j, c, by simpa [charAt] using hij, hcu, by rw [hsp, hy]⟩
    · rintro ⟨i, j, c, hij, hcu, hsp⟩
      cases i with
      | zero =>
        refine List.mem_append.mpr (Or.inl ((rowHoles_mem dia lab ulo y0 0 r.data).mpr
          ⟨j, c, by simpa [charAt] using hij, hcu, by simpa using hsp⟩))
      | succ i =>
        have hy : y0 + (i + 1) = y0 + 1 + i := by omega
        exact List.mem_append.mpr (Or.inr ((ih (y0 + 1)).mpr
          ⟨i, j, c, by simpa [charAt] using hij, hcu, by rw [hsp, hy]⟩))

theorem optionMapM_isSome {α β : Type} {f : α → Option β} :
    ∀ {l : List α}, (∀ a ∈ l, (f a).isSome = true) → (optionMapM f l).isSome = true := by
  intro l
  induction l with
  | nil => intro _; rfl
  | cons a as ih =>
    intro h
    obtain ⟨b, hb⟩ := Option.isSome_iff_exists.mp (h a (List.mem_cons_self a as))
    obtain ⟨bs, hbs⟩ :=
      Option.isSome_iff_exists.mp (ih (fun x hx => h x (List.mem_cons_of_mem _ hx)))
    simp [optionMapM, hb, hbs]

theorem optionMapM_mem_forward {α β : Type} {f : α → Option β} :
    ∀ {l : List α} {out : List β} {a : α},
      optionMapM f l = some out → a ∈ l → ∃ b, f a = some b ∧ b ∈ out := by
  intro l
  induction l with
  | nil => intro out a _ ha; exact absurd ha (List.not_mem_nil a)
  | cons x xs ih =>
    intro out a hmap ha
    rw [optionMapM] at hmap
    cases hfx : f x with
    | none => rw [hfx] at hmap; exact Option.noConfusion hmap
    | some b =>
      rw [hfx] at hmap
      cases hrest : optionMapM f xs with
      | none => rw [hrest] at hmap; exact Option.noConfusion hmap
      | some bs =>
        rw [hrest] at hmap
        have hout : out = b :: bs := (Option.some.inj hmap).symm
        subst hout
        rcases List.mem_cons.mp ha with h | h
        · subst h
          exact ⟨b, hfx, List.mem_cons_self b bs⟩
        · obtain ⟨b', hb', hmem⟩ := ih hrest h
          exact ⟨b', hb', List.mem_cons_of_mem _ hmem⟩

theorem optionMapM_mem_back {α β : Type} {f : α → Option β} :
    ∀ {l : List α} {out : List β} {b : β},
      optionMapM f l = some out → b ∈ out → ∃ a ∈ l, f a = some b := by
  intro l
  induction l with
  | nil =>
    intro out b hmap hb
    rw [optionMapM] at hmap
    have : out = [] := (Option.some.inj hmap).symm
    subst this
    exact absurd hb (List.not_mem_nil b)
  | cons x xs ih =>
    intro out b hmap hb
    rw [optionMapM] at hmap
    cases hfx : f x with
    | none => rw [hfx] at hmap; exact Option.noConfusion hmap
    | some b' =>
      rw [hfx] at hmap
      cases hrest : optionMapM f xs with
      | none => rw [hrest] at hmap; exact Option.noConfusion hmap
      | some bs =>
        rw [hrest] at hmap
        have hout : out = b' :: bs := (Option.some.inj hmap).symm
        subst hout
        rcases List.mem_cons.mp hb with h | h
        · subst h
          exact ⟨x, List.mem_cons_self x xs, hfx⟩
        · obtain ⟨a, ha, hfa⟩ := ih hrest h
          exact ⟨a, List.mem_cons_of_mem _ ha, hfa⟩

theorem slotFromPair_eq_some {locs : List (Char × P2D)} {lab pr : String} {sp : SP} :
    slotFromPair locs lab pr = some sp ↔
      ∃ p1 p2, dictLookup (pairChar pr 0) locs = some p1 ∧
        dictLookup (pairChar pr 1) locs = some p2 ∧
        sp = SP.square ⟨hexSlotName lab pr, slot_length, slot_width, P2D.mid p1 p2,
          atan2 (p1.y - p2.y) (p1.x - p2.x), slot_width / 2.0, 8⟩ := by
  unfold slotFromPair
  cases h1 : dictLookup (pairChar pr 0) locs with
  | none => simp
  | some p1 =>
    cases h2 : dictLookup (pairChar pr 1) locs with
    | none => simp
    | some p2 =>
      rw [Option.some_bind, Option.some_bind]
      simp only [Option.some.injEq]
      constructor
      · intro h
        exact ⟨p1, p2, rfl, rfl, h.symm⟩
      · rintro ⟨q1, q2, hq1, hq2, hsp⟩
        obtain rfl : p1 = q1 := hq1
        obtain rfl : p2 = q2 := hq2
        exact hsp.symm

theorem slotFromPair_isSome {locs : List (Char × P2D)} {lab pr : String}
    (h1 : (dictLookup (pairChar pr 0) locs).isSome = true)
    (h2 : (dictLookup (pairChar pr 1) locs).isSome = true) :
    (slotFromPair locs lab pr).isSome = true := by
  obtain ⟨p1, hp1⟩ := Option.isSome_iff_exists.mp h1
  obtain ⟨p2, hp2⟩ := Option.isSome_iff_exists.mp h2
  rw [slotFromPair, hp1, hp2, Option.some_bind, Option.some_bind]
  rfl

theorem hex_pattern_get_eq_some {rows pairs : List String} {o : P2D} {d : ℝ} {lab : String}
    {ps : List SP} {locs : List (Char × P2D)} :
    hex_pattern_get rows pairs o d lab = some (ps, locs) ↔
      ∃ y x slots, findOrigin 0 rows = some (y, x) ∧
        optionMapM (slotFromPair (hexLocations (hexUpperLeft o y x) rows) lab) pairs =
          some slots ∧
        ps = hexHoles d lab (hexUpperLeft o y x) 0 rows ++ slots ∧
        locs = hexLocations (hexUpperLeft o y x) rows := by
  unfold hex_pattern_get
  cases hfo : findOrigin 0 rows with
  | none =>
    rw [Option.none_bind]
    constructor
    · intro h
      exact Option.noConfusion h
    · rintro ⟨y, x, slots, hyx, _⟩
      exact Option.noConfusion hyx
  | some yx =>
    obtain ⟨y, x⟩ := yx
    rw [Option.some_bind]
    cases hsl :
        optionMapM (slotFromPair (hexLocations (hexUpperLeft o y x) rows) lab) pairs with
    | none =>
      rw [Option.none_bind]
      constructor
      · intro h
        exact Option.noConfusion h
      · rintro ⟨y', x', slots', hyx, hsl', _⟩
        have hp : (y, x) = (y', x') := Option.some.inj hyx
        obtain rfl : y = y' := congrArg Prod.fst hp
        obtain rfl : x = x' := congrArg Prod.snd hp
        rw [hsl] at hsl'
        exact Option.noConfusion hsl'
    | some slots =>
      rw [Option.some_bind]
      simp only [Option.some.injEq, Prod.mk.injEq]
      constructor
      · rintro ⟨hps, hlocs⟩
        exact ⟨y, x, slots, ⟨rfl, rfl⟩, hsl, hps.symm, hlocs.symm⟩
      · rintro ⟨y', x', slots', ⟨hy, hx⟩, hsl', hps, hlocs⟩
        obtain rfl : y = y' := hy
        obtain rfl : x = x' := hx
        rw [hsl] at hsl'
        obtain rfl : slots = slots' := Option.some.inj hsl'
        exact ⟨hps.symm, hlocs.symm⟩

theorem firstO_eq_none {cs : List Char} : firstO cs = none ↔ 'O' ∉ cs := by
  induction cs with
  | nil => simp [firstO]
  | cons a as ih =>
    by_cases ha : a = 'O'
    · subst ha
      simp [firstO]
    · rw [firstO, if_neg ha]
      constructor
      · intro h hmem
        rcases List.mem_cons.mp hmem with h' | h'
        · exact ha h'.symm
        · refine ih.mp ?_ h'
          cases hff : firstO as with
          | none => rfl
          | some j => rw [hff] at h; exact Option.noConfusion h
      · intro h
        rw [ih.mpr (fun hmem => h (List.mem_cons.mpr (Or.inr hmem)))]
        rfl

theorem firstO_eq_some {cs : List Char} {x : ℕ} (h : firstO cs = some x) :
    cs[x]? = some 'O' := by
  induction cs generalizing x with
  | nil => exact Option.noConfusion h
  | cons a as ih =>
    by_cases ha : a = 'O'
    · subst ha
      rw [firstO, if_pos rfl] at h
      obtain rfl : 0 = x := Option.some.inj h
      simp
    · rw [firstO, if_neg ha] at h
      cases hf : firstO as with
      | none => rw [hf] at h; exact Option.noConfusion h
      | some j =>
        rw [hf] at h
        obtain rfl : j + 1 = x := Option.some.inj h
        simpa using ih hf

theorem findOrigin_eq_none {rows : List String} (h : ∀ r ∈ rows, 'O' ∉ r.data) :
    ∀ y0, findOrigin y0 rows = none := by
  induction rows with
  | nil => intro y0; rfl
  | cons r rs ih =>
    intro y0
    rw [findOrigin]
    rw [firstO_eq_none.mpr (h r (List.mem_cons_self r rs))]
    exact ih (fun s hs => h s (List.mem_cons_of_mem _ hs)) (y0 + 1)

theorem findOrigin_charAt {rows : List String} {y x : ℕ} :
    ∀ {y0 : ℕ}, findOrigin y0 rows = some (y, x) →
      ∃ i, y = y0 + i ∧ charAt rows i x = some 'O' := by
  induction rows with
  | nil => intro y0 h; exact Option.noConfusion h
  | cons r rs ih =>
    intro y0 h
    rw [findOrigin] at h
    cases hf : firstO r.data with
    | some j =>
      rw [hf] at h
      have hp : (y0, j) = (y, x) := Option.some.inj h
      obtain rfl : y0 = y := congrArg Prod.fst hp
      obtain rfl : j = x := congrArg Prod.snd hp
      exact ⟨0, by omega, by simpa [charAt] using firstO_eq_some hf⟩
    | none =>
      rw [hf] at h
      obtain ⟨i, hy, hc⟩ := ih h
      exact ⟨i + 1, by omega, by simpa [charAt] using hc⟩

theorem hexHoles_all_circle {dia : ℝ} {lab : String} {ulo : P2D} {y0 : ℕ}
    {rows : List String} {sp : SP} (h : sp ∈ hexHoles dia lab ulo y0 rows) :
    sp.isCircleB = true := by
  obtain ⟨i, j, c, _, _, rfl⟩ := (hexHoles_mem dia lab ulo y0 rows).mp h
  rfl

theorem hexHoles_all_marker {dia : ℝ} {lab : String} {ulo : P2D} {y0 : ℕ}
    {rows : List String} {sp : SP} (h : sp ∈ hexHoles dia lab ulo y0 rows) :
    startsWithRight sp.nameOf := by
  obtain ⟨i, j, c, _, _, rfl⟩ := (hexHoles_mem dia lab ulo y0 rows).mp h
  exact ⟨_, rfl⟩

theorem hexSlots_all_square {locs : List (Char × P2D)} {lab : String}
    {pairs : List String} {slots : List SP}
    (hsl : optionMapM (slotFromPair locs lab) pairs = some slots) :
    ∀ sp ∈ slots, sp.isSquareB = true := by
  intro sp hsp
  obtain ⟨pr, _, hf⟩ := optionMapM_mem_back hsl hsp
  obtain ⟨p1, p2, _, _, rfl⟩ := slotFromPair_eq_some.mp hf
  rfl

theorem hexSlots_all_marker {locs : List (Char × P2D)} {lab : String}
    {pairs : List String} {slots : List SP}
    (hsl : optionMapM (slotFromPair locs lab) pairs = some slots) :
    ∀ sp ∈ slots, startsWithRight sp.nameOf := by
  intro sp hsp
  obtain ⟨pr, _, hf⟩ := optionMapM_mem_back hsl hsp
  obtain ⟨p1, p2, _, _, rfl⟩ := slotFromPair_eq_some.mp hf
  exact ⟨_, rfl⟩

theorem hex_run_filter_circle {rows pairs : List String} {o : P2D} {d : ℝ} {lab : String}
    {ps : List SP} {locs : List (Char × P2D)}
    (h : hex_pattern_get rows pairs o d lab = some (ps, locs)) :
    ∃ y x, findOrigin 0 rows = some (y, x) ∧
      ps.filter SP.isCircleB = hexHoles d lab (hexUpperLeft o y x) 0 rows := by
  obtain ⟨y, x, slots, hfo, hsl, hps, _⟩ := hex_pattern_get_eq_some.mp h
  refine ⟨y, x, hfo, ?_⟩
  rw [hps, List.filter_append,
    List.filter_eq_self.mpr (fun sp hsp => hexHoles_all_circle hsp),
    List.filter_eq_nil_iff.mpr (fun sp hsp => ?_), List.append_nil]
  have hsq := hexSlots_all_square hsl sp hsp
  intro hcirc
  cases sp with
  | circle c => exact Bool.noConfusion hsq
  | square s => exact Bool.noConfusion hcirc
  | contour n pts lk => exact Bool.noConfusion hsq

theorem hex_run_all_marker {rows pairs : List String} {o : P2D} {d : ℝ} {lab : String}
    {ps : List SP} {locs : List (Char × P2D)}
    (h : hex_pattern_get rows pairs o d lab = some (ps, locs)) :
    ∀ sp ∈ ps, startsWithRight sp.nameOf := by
  obtain ⟨y, x, slots, _, hsl, hps, _⟩ := hex_pattern_get_eq_some.mp h
  intro sp hsp
  rw [hps] at hsp
  rcases List.mem_append.mp hsp with hm | hm
  · exact hexHoles_all_marker hm
  · exact hexSlots_all_marker hsl sp hm

theorem dist_origin_add_cos_sin (r θ : ℝ) (hr : 0 ≤ r) :
    P2D.distance ⟨0, 0⟩ ⟨(P2D.mk 0 0).x + r * Real.cos θ, (P2D.mk 0 0).y + r * Real.sin θ⟩ =
      r := by
  show Real.sqrt (((P2D.mk 0 0).x + r * Real.cos θ - 0) ^ 2 +
    ((P2D.mk 0 0).y + r * Real.sin θ - 0) ^ 2) = r
  have key : ((P2D.mk 0 0).x + r * Real.cos θ - 0) ^ 2 +
      ((P2D.mk 0 0).y + r * Real.sin θ - 0) ^ 2 =
      r ^ 2 * (Real.cos θ ^ 2 + Real.sin θ ^ 2) := by
    show ((0 : ℝ) + r * Real.cos θ - 0) ^ 2 + ((0 : ℝ) + r * Real.sin θ - 0) ^ 2 = _
    ring
  rw [key, Real.cos_sq_add_sin_sq, mul_one, Real.sqrt_sq hr]

theorem dist_origin_cos_sin (r θ : ℝ) (hr : 0 ≤ r) :
    P2D.distance ⟨0, 0⟩ ⟨r * Real.cos θ, r * Real.sin θ⟩ = r := by
  have h := dist_origin_add_cos_sin r θ hr
  rw [show (P2D.mk 0 0).x + r * Real.cos θ = r * Real.cos θ from zero_add _,
    show (P2D.mk 0 0).y + r * Real.sin θ = r * Real.sin θ from zero_add _] at h
  exact h

theorem arc_append_dist {r a b : ℝ} {n : ℕ} (hr : 0 ≤ r) :
    ∀ p ∈ arc_append ⟨0, 0⟩ r a b n, P2D.distance ⟨0, 0⟩ p = r := by
  intro p hp
  simp only [arc_append, List.mem_map, List.mem_range] at hp
  obtain ⟨i, _, rfl⟩ := hp
  exact dist_origin_add_cos_sin r _ hr

theorem wheel_well_corner_dist : P2D.distance ⟨0, 0⟩ wheel_well_corner = outline_radius := by
  unfold wheel_well_corner
  exact dist_origin_cos_sin _ _ (by norm_num [outline_radius])

theorem outline_points_length : outline_points.length = 2 * arc_count + 4 := rfl

theorem base_outline_eq :
    base_outline_polygon_get = some (SP.contour "Romi Base Exterior" outline_points true) := by
  unfold base_outline_polygon_get
  rw [wheel_well_corner_dist, sub_self, abs_zero, if_pos (by norm_num),
    if_pos outline_points_length]

theorem upper_hex_isSome : upper_hex_polygons_get.isSome = true := rfl

theorem lower_hex_isSome : lower_hex_polygons_table_get.isSome = true := rfl

theorem lower_hex_line_isSome :
    (lower_hex_polygons_table_get.bind (fun q => line_hole_polygons_get q.2)).isSome = true :=
  rfl

theorem base_scad_eq :
    ∃ uh lh tbl ln,
      upper_hex_polygons_get = some uh ∧
      lower_hex_polygons_table_get = some (lh, tbl) ∧
      line_hole_polygons_get tbl = some ln ∧
      base_scad_polygon_generate =
        some ⟨"Romi Base ScadPolygon",
          SP.contour "Romi Base Exterior" outline_points true ::
            (battery_polygons_get ++ mirrorable_polygons_of uh lh ln ++
              (mirrorable_polygons_of uh lh ln).map (SP.y_mirror "RIGHT:" "LEFT:")),
          true⟩ := by
  obtain ⟨uh, huh⟩ := Option.isSome_iff_exists.mp upper_hex_isSome
  obtain ⟨pl, hpl⟩ := Option.isSome_iff_exists.mp lower_hex_isSome
  have hcomb := lower_hex_line_isSome
  rw [hpl, Option.some_bind] at hcomb
  obtain ⟨ln, hln⟩ := Option.isSome_iff_exists.mp hcomb
  refine ⟨uh, pl.1, pl.2, ln, huh, ?_, hln, ?_⟩
  · rw [hpl]
  · unfold base_scad_polygon_generate
    rw [base_outline_eq, Option.some_bind, huh, Option.some_bind, hpl, Option.some_bind,
      hln, Option.some_bind]

theorem lower_arc_all_marker :
    ∀ sp ∈ lower_arc_holes_rectangles_get, startsWithRight sp.nameOf := by
  intro sp hsp
  simp only [lower_arc_holes_rectangles_get, List.mem_flatMap, List.mem_range] at hsp
  obtain ⟨i, _, hmem⟩ := hsp
  rcases List.mem_append.mp hmem with hm | hm
  · by_cases hi : i < lower_holes_count + 1
    · rw [if_pos hi] at hm
      obtain rfl := List.mem_singleton.mp hm
      exact startsWithRight_append "RIGHT: Lower hole " "Lower hole " (toString i) (by decide)
    · rw [if_neg hi] at hm
      exact absurd hm (List.not_mem_nil sp)
  · obtain rfl := List.mem_singleton.mp hm
    exact startsWithRight_append "RIGHT: Lower left Rectangle " "Lower left Rectangle "
      (toString i) (by decide)

theorem upper_arc_all_marker :
    ∀ sp ∈ upper_arc_holes_rectangles_get, startsWithRight sp.nameOf := by
  intro sp hsp
  simp only [upper_arc_holes_rectangles_get, List.mem_flatMap, List.mem_range] at hsp
  obtain ⟨i, _, hmem⟩ := hsp
  rcases List.mem_append.mp hmem with hm | hm
  · by_cases hi : i ∈ upper_skip_indices
    · rw [if_pos hi] at hm
      exact absurd hm (List.not_mem_nil sp)
    · rw [if_neg hi] at hm
      obtain rfl := List.mem_singleton.mp hm
      exact startsWithRight_append "RIGHT: Upper hole " "Upper hole " (toString i) (by decide)
  · obtain rfl := List.mem_singleton.mp hm
    exact startsWithRight_append "RIGHT: Upper Right Rectangle " "Upper Right Rectangle "
      (toString i) (by decide)

theorem line_holes_all_marker {tbl : List (Char × P2D)} {ln : List SP}
    (h : line_hole_polygons_get tbl = some ln) :
    ∀ sp ∈ ln, startsWithRight sp.nameOf := by
  unfold line_hole_polygons_get at h
  cases hs : dictLookup 'S' tbl with
  | none => rw [hs] at h; exact Option.noConfusion h
  | some s =>
    rw [hs, Option.some_bind] at h
    cases hq : dictLookup 'Q' tbl with
    | none => rw [hq] at h; exact Option.noConfusion h
    | some q =>
      rw [hq, Option.some_bind] at h
      obtain rfl := (Option.some.inj h).symm
      intro sp hsp
      simp only [List.mem_flatMap, List.mem_range] at hsp
      obtain ⟨i, _, hm⟩ := hsp
      by_cases hi : i % 3 ≠ 1
      · rw [if_pos hi] at hm
        obtain rfl := List.mem_singleton.mp hm
        exact startsWithRight_append "RIGHT: Vector Hole " "Vector Hole " (toString i) (by decide)
      · rw [if_neg hi] at hm
        exact absurd hm (List.not_mem_nil sp)

theorem misc_all_marker :
    ∀ sp ∈ miscellaneous_holes_get.map SP.circle, startsWithRight sp.nameOf := by
  intro sp hsp
  simp only [miscellaneous_holes_get, List.map_cons, List.map_nil, List.mem_cons,
    List.not_mem_nil, or_false] at hsp
  rcases hsp with rfl | rfl | rfl | rfl | rfl | rfl | rfl
  · exact ⟨"Misc Small Lower Left", by decide⟩
  · exact ⟨"Misc Small Upper Left", by decide⟩
  · exact ⟨"Misc Small Upper Right -30deg", by decide⟩
  · exact ⟨"Misc Small Upper Right 30deg", by decide⟩
  · exact ⟨"Misc Small Upper Right 90deg", by decide⟩
  · exact ⟨"Misc Small Upper Right 120deg", by decide⟩
  · exact ⟨"Misc Large Upper Right", by decide⟩

theorem vertical_all_marker :
    ∀ sp ∈ vertical_rectangles_get, startsWithRight sp.nameOf := by
  intro sp hsp
  simp only [vertical_rectangles_get, upper_vertical_rectangles, List.map_cons, List.map_nil,
    List.cons_append, List.nil_append, List.mem_cons, List.not_mem_nil, or_false] at hsp
  rcases hsp with rfl | rfl | rfl | rfl | rfl | rfl | rfl | rfl
  · exact ⟨"UPPER: Rectangle 0", by decide⟩
  · exact ⟨"UPPER: Rectangle 1", by decide⟩
  · exact ⟨"UPPER: Rectangle 2", by decide⟩
  · exact ⟨"UPPER: Rectangle 3", by decide⟩
  · exact ⟨"LOWER: Rectangle 0", by decide⟩
  · exact ⟨"LOWER: Rectangle 1", by decide⟩
  · exact ⟨"LOWER: Rectangle 2", by decide⟩
  · exact ⟨"LOWER: Rectangle 3", by decide⟩

theorem upper_hex_all_marker {uh : List SP} (h : upper_hex_polygons_get = some uh) :
    ∀ sp ∈ uh, startsWithRight sp.nameOf := by
  unfold upper_hex_polygons_get at h
  cases hrun : hex_pattern_get upper_pattern_rows upper_slot_pairs upper_hex_hole.center
      upper_hex_hole.diameter "UPPER" with
  | none => rw [hrun] at h; exact Option.noConfusion h
  | some pr =>
    rw [hrun] at h
    obtain rfl : pr.1 = uh := Option.some.inj h
    exact hex_run_all_marker hrun

theorem lower_hex_all_marker {lh : List SP} {tbl : List (Char × P2D)}
    (h : lower_hex_polygons_table_get = some (lh, tbl)) :
    ∀ sp ∈ lh, startsWithRight sp.nameOf := by
  have h' : hex_pattern_get lower_pattern_rows lower_slot_pairs lower_hex_hole.center
      lower_hex_hole.diameter "LOWER" = some (lh, tbl) := h
  exact hex_run_all_marker h'

theorem mirrorable_all_marker {uh lh ln : List SP} {tbl : List (Char × P2D)}
    (huh : upper_hex_polygons_get = some uh)
    (hlh : lower_hex_polygons_table_get = some (lh, tbl))
    (hln : line_hole_polygons_get tbl = some ln) :
    ∀ sp ∈ mirrorable_polygons_of uh lh ln, startsWithRight sp.nameOf := by
  intro sp hsp
  simp only [mirrorable_polygons_of, List.append_assoc, List.mem_append] at hsp
  rcases hsp with h | h | h | h | h | h | h
  · exact upper_hex_all_marker huh sp h
  · exact lower_hex_all_marker hlh sp h
  · exact line_holes_all_marker hln sp h
  · exact lower_arc_all_marker sp h
  · exact upper_arc_all_marker sp h
  · exact misc_all_marker sp h
  · exact vertical_all_marker sp h

@[simp] theorem P2D.sub_x (a b : P2D) : (a - b).x = a.x - b.x := rfl

@[simp] theorem P2D.sub_y (a b : P2D) : (a - b).y = a.y - b.y := rfl

@[simp] theorem P2D.add_x (a b : P2D) : (a + b).x = a.x + b.x := rfl

@[simp] theorem P2D.add_y (a b : P2D) : (a + b).y = a.y + b.y := rfl

theorem lower_start_diameter_eq : lower_start.diameter = 3.1836487 := by
  show ((|(-1.357508) * inches2mm - (-1.483063) * inches2mm| +
    |1.223803 * inches2mm - 1.348929 * inches2mm|) / 2.0) = 3.1836487
  rw [abs_of_nonneg (by norm_num [inches2mm]), abs_of_nonpos (by norm_num [inches2mm])]
  norm_num [inches2mm]

theorem lower_end_diameter_eq : lower_end.diameter = 2.300097 := by
  show ((|(-3.053465) * inches2mm - (-3.144020) * inches2mm| +
    |0.034732 * inches2mm - 0.125287 * inches2mm|) / 2.0) = 2.300097
  rw [abs_of_nonneg (by norm_num [inches2mm]), abs_of_nonpos (by norm_num [inches2mm])]
  norm_num [inches2mm]

/-! ## Claim theorems -/

/-- C9 (amended): the derived vertical origin offset equals the average of
the two axle-height calibration inputs converted at 25.4 mm/in, and that
value is exactly 74.6159925 mm (≈ 74.616 mm), not ≈ 74.565 mm. -/
theorem C9_y_origin_offset_value :
    y_origin_offset = (2.967165 + 2.908110) / 2 * 25.4 ∧ y_origin_offset = 74.6159925 := by
  constructor <;> norm_num [y_origin_offset, axel_y_above, axel_y_below, inches2mm]

/-- C9 counterexample: the derived vertical origin offset is not
approximately 74.565 mm — it differs from 74.565 by more than 0.05 mm. -/
theorem C9_offset_not_74_565 : ¬ |y_origin_offset - 74.565| < 0.05 := by
  have h : y_origin_offset - 74.565 = 0.0509925 := by
    norm_num [y_origin_offset, axel_y_above, axel_y_below, inches2mm]
  rw [h, abs_of_nonneg (by norm_num)]
  norm_num

/-- C2: the upper-arc generator with N = 12 iterates over the 13 angular
positions 0..12, emits a rectangle at every position (13 rectangles) and a
hole at every position except those in the fixed excluded index set
{2, 3, 12, 13}, yielding exactly the 10 holes at indices
0, 1, 4, 5, 6, 7, 8, 9, 10, 11. -/
theorem C2_upper_arc_counts :
    upper_holes_count + 1 = 13 ∧
    (upper_arc_holes_rectangles_get.filter SP.isSquareB).length = 13 ∧
    (upper_arc_holes_rectangles_get.filter SP.isCircleB).length = 10 ∧
    (upper_arc_holes_rectangles_get.filter SP.isSquareB).map SP.nameOf =
      (List.range 13).map (fun i => "RIGHT: Upper Right Rectangle " ++ toString i) ∧
    (upper_arc_holes_rectangles_get.filter SP.isCircleB).map SP.nameOf =
      ((List.range 13).filter (fun i => decide (i ∉ upper_skip_indices))).map
        (fun i => "RIGHT: Upper hole " ++ toString i) ∧
    upper_skip_indices = [2, 3, 12, 13] := by
  refine ⟨rfl, rfl, rfl, ?_, ?_, rfl⟩ <;> decide

/-- C3: the lower-arc generator with N = 12 iterates over N+3 = 15 angular
positions, emits a rectangle at every position but a hole only at the first
N+1 = 13 positions, and at each position both the hole diameter and the
rectangle length take the large measured size when the index is divisible by
3 and the small measured size otherwise. -/
theorem C3_lower_arc_counts :
    lower_holes_count + 3 = 15 ∧ lower_holes_count + 1 = 13 ∧
    (lower_arc_holes_rectangles_get.filter SP.isSquareB).length = 15 ∧
    (lower_arc_holes_rectangles_get.filter SP.isCircleB).length = 13 ∧
    (lower_arc_holes_rectangles_get.filter SP.isSquareB).map SP.nameOf =
      (List.range 15).map (fun i => "RIGHT: Lower left Rectangle " ++ toString i) ∧
    (lower_arc_holes_rectangles_get.filter SP.isCircleB).map SP.nameOf =
      (List.range 13).map (fun i => "RIGHT: Lower hole " ++ toString i) ∧
    (∀ i, (lowerHole i).diameter =
      if i % 3 = 0 then lower_start.diameter else lower_end.diameter) ∧
    (∀ i, (lowerRect i).dy =
      if i % 3 = 0 then lower_large_rectangle_length else lower_small_rectangle_length) ∧
    lower_end.diameter < lower_start.diameter ∧
    lower_small_rectangle_length < lower_large_rectangle_length := by
  refine ⟨rfl, rfl, rfl, rfl, by decide, by decide, fun i => rfl, fun i => rfl, ?_, ?_⟩
  · rw [lower_start_diameter_eq, lower_end_diameter_eq]
    norm_num
  · unfold lower_small_rectangle_length lower_large_rectangle_length P2D.distance
    apply Real.sqrt_lt_sqrt
    · positivity
    · simp only [lower_small_upper_left_corner, lower_small_lower_left_corner,
        lower_large_upper_left_corner, lower_large_lower_left_corner, P2D.sub_x, P2D.sub_y]
      norm_num [origin_offset, x_origin_offset, y_origin_offset, axel_y_above, axel_y_below,
        upper_castor_x_left, upper_castor_x_right, inches2mm]

/-- C8 (amended): for all inputs in inches, `hole_locate` returns a circle
with center the midpoint of the scaled points minus the origin offset and
diameter the average of the two scaled extents, and `rectangle_locate`
returns a rectangle with width and height the scaled extents and the same
center rule; neither has a failure path.  A degenerate input yields a
zero-width or zero-height rectangle, but the circle diameter is zero only
when both coordinate pairs coincide (a single degenerate axis still leaves
half the other extent as diameter). -/
theorem C8_locator_formulas :
    ∀ (n : String) (x1 y1 x2 y2 : ℝ),
      (hole_locate n x1 y1 x2 y2).diameter =
        (|x2 * inches2mm - x1 * inches2mm| + |y2 * inches2mm - y1 * inches2mm|) / 2 ∧
      (hole_locate n x1 y1 x2 y2).center =
        P2D.mk ((x1 * inches2mm + x2 * inches2mm) / 2) ((y1 * inches2mm + y2 * inches2mm) / 2) -
          origin_offset ∧
      (rectangle_locate n x1 y1 x2 y2).dx = |x2 * inches2mm - x1 * inches2mm| ∧
      (rectangle_locate n x1 y1 x2 y2).dy = |y2 * inches2mm - y1 * inches2mm| ∧
      (rectangle_locate n x1 y1 x2 y2).center =
        P2D.mk ((x1 * inches2mm + x2 * inches2mm) / 2) ((y1 * inches2mm + y2 * inches2mm) / 2) -
          origin_offset ∧
      (x1 = x2 → (rectangle_locate n x1 y1 x2 y2).dx = 0) ∧
      (y1 = y2 → (rectangle_locate n x1 y1 x2 y2).dy = 0) ∧
      (x1 = x2 ∧ y1 = y2 → (hole_locate n x1 y1 x2 y2).diameter = 0) := by
  intro n x1 y1 x2 y2
  refine ⟨by norm_num [hole_locate], by norm_num [hole_locate], by norm_num [rectangle_locate],
    by norm_num [rectangle_locate], by norm_num [rectangle_locate], ?_, ?_, ?_⟩
  · rintro rfl
    simp [rectangle_locate]
  · rintro rfl
    simp [rectangle_locate]
  · rintro ⟨rfl, rfl⟩
    simp [hole_locate]

/-- C8 witness: at the degenerate inputs `(1, 2)-(1, 4)` the rectangle is
zero-width, and at `(1, 2)-(1, 2)` the hole has zero diameter. -/
theorem C8_locator_witness :
    (rectangle_locate "Slot" 1 2 1 4).dx = 0 ∧ (hole_locate "Hole" 1 2 1 2).diameter = 0 :=
  ⟨(C8_locator_formulas "Slot" 1 2 1 4).2.2.2.2.2.1 rfl,
   (C8_locator_formulas "Hole" 1 2 1 2).2.2.2.2.2.2.2 ⟨rfl, rfl⟩⟩

/-- C8 counterexample: the degenerate input `x1 = x2 = 0`, `y1 = 0`, `y2 = 1`
does not yield a zero-size feature from `hole_locate`: the diameter is
12.7 mm, half the remaining vertical extent. -/
theorem C8_degenerate_hole_not_zero :
    (hole_locate "Hole" 0 0 0 1).diameter = 12.7 ∧ (12.7 : ℝ) ≠ 0 := by
  constructor
  · show (|(0:ℝ) * inches2mm - 0 * inches2mm| + |1 * inches2mm - 0 * inches2mm|) / 2.0 = 12.7
    rw [abs_of_nonneg (by norm_num [inches2mm]), abs_of_nonneg (by norm_num [inches2mm])]
    norm_num [inches2mm]
  · norm_num

/-- C5: the outline polygon contains exactly 2*21 + 4 = 46 points, every
point of the two outline arcs lies at distance exactly the nominal radius
81.5 mm from the origin (hence within the 1e-5 mm tolerance), and the
explicit wheel-well distance check of the builder passes, so the locked
contour is returned. -/
theorem C5_outline_invariants :
    base_outline_polygon_get = some (SP.contour "Romi Base Exterior" outline_points true) ∧
    outline_points.length = 2 * arc_count + 4 ∧
    outline_points.length = 46 ∧
    outline_radius = 81.5 ∧
    (∀ p ∈ outline_upper_arc ++ outline_lower_arc,
      P2D.distance ⟨0, 0⟩ p = outline_radius ∧
        |P2D.distance ⟨0, 0⟩ p - outline_radius| < 0.00001) ∧
    |outline_radius - P2D.distance ⟨0, 0⟩ wheel_well_corner| < 0.00001 := by
  refine ⟨base_outline_eq, rfl, rfl, by norm_num [outline_radius], ?_, ?_⟩
  · intro p hp
    have hr : (0 : ℝ) ≤ outline_radius := by norm_num [outline_radius]
    have hd : P2D.distance ⟨0, 0⟩ p = outline_radius := by
      rcases List.mem_append.mp hp with h | h
      · simp only [outline_upper_arc] at h
        exact arc_append_dist hr p h
      · simp only [outline_lower_arc] at h
        exact arc_append_dist hr p h
    exact ⟨hd, by rw [hd, sub_self, abs_zero]; norm_num⟩
  · rw [wheel_well_corner_dist, sub_self, abs_zero]
    norm_num

/-- C5 witness: the first point of the upper outline arc is a concrete arc
point whose distance from the origin is exactly the nominal radius. -/
theorem C5_outline_witness :
    ∃ p, p ∈ outline_upper_arc ++ outline_lower_arc ∧
      P2D.distance ⟨0, 0⟩ p = outline_radius ∧
      |P2D.distance ⟨0, 0⟩ p - outline_radius| < 0.00001 := by
  have hlen : 0 < outline_upper_arc.length := by
    rw [show outline_upper_arc.length = 21 from rfl]
    norm_num
  refine ⟨outline_upper_arc.get ⟨0, hlen⟩, ?_, ?_⟩
  · exact List.mem_append_left _ (List.get_mem outline_upper_arc 0 hlen)
  · exact C5_outline_invariants.2.2.2.2.1 _
      (List.mem_append_left _ (List.get_mem outline_upper_arc 0 hlen))

/-- C4: for every successful run of `hex_pattern_get`, the returned anchor
table has a binding exactly for the non-`'-'` characters appearing in the
pattern rows, and the circles in the returned feature list are exactly the
holes generated at the grid positions holding an uppercase character (a
lowercase anchor yields a table entry but no hole). -/
theorem C4_anchor_keys_and_holes :
    ∀ (rows pairs : List String) (o : P2D) (d : ℝ) (lab : String)
      (ps : List SP) (locs : List (Char × P2D)),
      hex_pattern_get rows pairs o d lab = some (ps, locs) →
      (∀ c : Char, (dictLookup c locs).isSome = true ↔
        (c ≠ '-' ∧ ∃ r ∈ rows, c ∈ r.data)) ∧
      ∃ y x, findOrigin 0 rows = some (y, x) ∧
        ps.filter SP.isCircleB = hexHoles d lab (hexUpperLeft o y x) 0 rows ∧
        (∀ sp : SP, sp ∈ hexHoles d lab (hexUpperLeft o y x) 0 rows ↔
          ∃ yi xi c, charAt rows yi xi = some c ∧ c.isUpper = true ∧
            sp = SP.circle ⟨hexHoleName lab xi yi, d, 8,
              hexPos (hexUpperLeft o y x) xi yi⟩) := by
  intro rows pairs o d lab ps locs h
  obtain ⟨y, x, slots, hfo, hsl, hps, hlocs⟩ := hex_pattern_get_eq_some.mp h
  constructor
  · intro c
    rw [hlocs]
    exact hexLocations_keys (hexUpperLeft o y x) rows
  · obtain ⟨y', x', hfo', hfilter⟩ := hex_run_filter_circle h
    rw [hfo] at hfo'
    have hp := Option.some.inj hfo'
    obtain rfl : y = y' := congrArg Prod.fst hp
    obtain rfl : x = x' := congrArg Prod.snd hp
    refine ⟨y, x, hfo, hfilter, ?_⟩
    intro sp
    rw [hexHoles_mem]
    constructor
    · rintro ⟨i, j, c, h1, h2, h3⟩
      exact ⟨i, j, c, h1, h2, by simpa using h3⟩
    · rintro ⟨yi, xi, c, h1, h2, h3⟩
      exact ⟨yi, xi, c, h1, h2, by simpa using h3⟩

/-- C4 witness: running the engine on the single-row pattern `"O"` with no
slot pairs succeeds, and the key characterization instantiated at `'O'`
holds for its anchor table. -/
theorem C4_anchor_keys_witness :
    ∃ ps locs, hex_pattern_get ["O"] [] ⟨0, 0⟩ 1 "T" = some (ps, locs) ∧
      ((dictLookup 'O' locs).isSome = true ↔
        ('O' ≠ '-' ∧ ∃ r ∈ ["O"], 'O' ∈ r.data)) := by
  cases hrun : hex_pattern_get ["O"] [] ⟨0, 0⟩ 1 "T" with
  | none =>
    have hs : (hex_pattern_get ["O"] [] ⟨0, 0⟩ 1 "T").isSome = true := rfl
    rw [hrun] at hs
    exact Bool.noConfusion hs
  | some pr =>
    exact ⟨pr.1, pr.2, rfl,
      (C4_anchor_keys_and_holes ["O"] [] ⟨0, 0⟩ 1 "T" pr.1 pr.2 hrun).1 'O'⟩

/-- C1 (amended): every slot synthesized by `hex_pattern_get` for a slot-pair
code has center the midpoint of the two named anchors, rotation the angle of
the line joining them, corner radius half the globally fixed slot width, and
length the globally fixed measured `slot_length` — not the distance between
the two anchors. -/
theorem C1_slot_geometry :
    ∀ (rows pairs : List String) (o : P2D) (d : ℝ) (lab : String)
      (ps : List SP) (locs : List (Char × P2D)),
      hex_pattern_get rows pairs o d lab = some (ps, locs) →
      ∀ pr ∈ pairs, ∃ p1 p2,
        dictLookup (pairChar pr 0) locs = some p1 ∧
        dictLookup (pairChar pr 1) locs = some p2 ∧
        SP.square ⟨hexSlotName lab pr, slot_length, slot_width, P2D.mid p1 p2,
          atan2 (p1.y - p2.y) (p1.x - p2.x), slot_width / 2.0, 8⟩ ∈ ps := by
  intro rows pairs o d lab ps locs h pr hpr
  obtain ⟨y, x, slots, hfo, hsl, hps, hlocs⟩ := hex_pattern_get_eq_some.mp h
  obtain ⟨b, hb, hbmem⟩ := optionMapM_mem_forward hsl hpr
  obtain ⟨p1, p2, h1, h2, rfl⟩ := slotFromPair_eq_some.mp hb
  subst hlocs
  exact ⟨p1, p2, h1, h2, by rw [hps]; exact List.mem_append_right _ hbmem⟩

/-- C1 witness: on the two-row pattern `["O", "b"]` with the single slot
pair `"Ob"`, the run succeeds and the synthesized slot has exactly the
stated geometry. -/
theorem C1_slot_geometry_witness :
    ∃ ps locs p1 p2,
      hex_pattern_get ["O", "b"] ["Ob"] ⟨0, 0⟩ 1 "T" = some (ps, locs) ∧
      dictLookup (pairChar "Ob" 0) locs = some p1 ∧
      dictLookup (pairChar "Ob" 1) locs = some p2 ∧
      SP.square ⟨hexSlotName "T" "Ob", slot_length, slot_width, P2D.mid p1 p2,
        atan2 (p1.y - p2.y) (p1.x - p2.x), slot_width / 2.0, 8⟩ ∈ ps := by
  cases hrun : hex_pattern_get ["O", "b"] ["Ob"] ⟨0, 0⟩ 1 "T" with
  | none =>
    have hs : (hex_pattern_get ["O", "b"] ["Ob"] ⟨0, 0⟩ 1 "T").isSome = true := rfl
    rw [hrun] at hs
    exact Bool.noConfusion hs
  | some pr =>
    obtain ⟨p1, p2, h1, h2, hmem⟩ :=
      C1_slot_geometry ["O", "b"] ["Ob"] ⟨0, 0⟩ 1 "T" pr.1 pr.2 hrun "Ob"
        (List.mem_singleton.mpr rfl)
    exact ⟨pr.1, pr.2, p1, p2, rfl, h1, h2, hmem⟩

/-- C1 counterexample: on the pattern `["O", "b"]` with slot pair `"Ob"` the
two anchors are exactly 7.5 mm apart, but the synthesized slot's length is
the fixed measured `slot_length` (≈ 5.0 mm), which is not 7.5 mm — the slot
length is not the straight-line distance between the two anchors. -/
theorem C1_slot_length_counterexample :
    ∃ ps locs s,
      hex_pattern_get ["O", "b"] ["Ob"] ⟨0, 0⟩ 1 "T" = some (ps, locs) ∧
      ps.getLast? = some s ∧ s.isSquareB = true ∧
      dictLookup 'O' locs = some (hexPos (hexUpperLeft ⟨0, 0⟩ 0 0) 0 0) ∧
      dictLookup 'b' locs = some (hexPos (hexUpperLeft ⟨0, 0⟩ 0 0) 0 1) ∧
      s.dxOf = slot_length ∧
      P2D.distance (hexPos (hexUpperLeft ⟨0, 0⟩ 0 0) 0 0)
        (hexPos (hexUpperLeft ⟨0, 0⟩ 0 0) 0 1) = 7.5 ∧
      slot_length ≠ 7.5 := by
  refine ⟨_, _, _, rfl, rfl, rfl, rfl, rfl, rfl, ?_, ?_⟩
  · have h0 : hexPos (hexUpperLeft ⟨0, 0⟩ 0 0) 0 0 = P2D.mk 0 0 := by
      simp [hexPos, hexUpperLeft]
    have h1 : hexPos (hexUpperLeft ⟨0, 0⟩ 0 0) 0 1 = P2D.mk 0 (-7.5) := by
      simp [hexPos, hexUpperLeft, hex_dy_pitch]
      norm_num
    rw [h0, h1]
    show Real.sqrt (((0 : ℝ) - 0) ^ 2 + ((-7.5 : ℝ) - 0) ^ 2) = 7.5
    rw [show ((0 : ℝ) - 0) ^ 2 + ((-7.5 : ℝ) - 0) ^ 2 = 7.5 ^ 2 from by norm_num,
      Real.sqrt_sq (by norm_num)]
  · have h : slot_length = 4.9999138 := by
      norm_num [slot_length, slot_dx, slot_dy, slot_top_y, slot_bottom_y, slot_left_x,
        slot_right_x, inches2mm]
    rw [h]
    norm_num

/-- C7 (amended): a pattern with no `'O'` in any row makes `hex_pattern_get`
fail (return `none`); the origin search returns the row and column of the
first `'O'`; and every successful run derives its anchor table from the
upper-left origin computed from that row/column with row pitch 7.5 mm and
column pitch 7.5/sqrt(3) mm.  At least one `'O'` is required, but exactly
one is not. -/
theorem C7_origin_requirements :
    (∀ (rows pairs : List String) (o : P2D) (d : ℝ) (lab : String),
      (∀ r ∈ rows, 'O' ∉ r.data) → hex_pattern_get rows pairs o d lab = none) ∧
    (∀ (rows : List String) (y x : ℕ),
      findOrigin 0 rows = some (y, x) → charAt rows y x = some 'O') ∧
    (∀ (rows pairs : List String) (o : P2D) (d : ℝ) (lab : String)
      (ps : List SP) (locs : List (Char × P2D)),
      hex_pattern_get rows pairs o d lab = some (ps, locs) →
      ∃ y x, findOrigin 0 rows = some (y, x) ∧
        locs = hexLocations (hexUpperLeft o y x) rows ∧
        hexUpperLeft o y x =
          ⟨o.x - (x : ℝ) * (7.5 / Real.sqrt 3), o.y + (y : ℝ) * 7.5⟩) := by
  refine ⟨?_, ?_, ?_⟩
  · intro rows pairs o d lab h
    unfold hex_pattern_get
    rw [findOrigin_eq_none h 0, Option.none_bind]
  · intro rows y x h
    obtain ⟨i, hy, hc⟩ := findOrigin_charAt h
    rw [Nat.zero_add] at hy
    subst hy
    exact hc
  · intro rows pairs o d lab ps locs h
    obtain ⟨y, x, slots, hfo, _, _, hlocs⟩ := hex_pattern_get_eq_some.mp h
    refine ⟨y, x, hfo, hlocs, ?_⟩
    simp only [hexUpperLeft, half_hex_dx_pitch, hex_dy_pitch]
    norm_num

/-- C7 witness: a pattern with no `'O'` fails, and the single-row pattern
`["O"]` succeeds with the origin search returning its position. -/
theorem C7_origin_witness :
    hex_pattern_get ["ab"] [] ⟨0, 0⟩ 1 "T" = none ∧
    (∃ ps locs y x, hex_pattern_get ["O"] [] ⟨0, 0⟩ 1 "T" = some (ps, locs) ∧
      findOrigin 0 ["O"] = some (y, x)) := by
  constructor
  · exact C7_origin_requirements.1 ["ab"] [] ⟨0, 0⟩ 1 "T" (by decide)
  · cases hrun : hex_pattern_get ["O"] [] ⟨0, 0⟩ 1 "T" with
    | none =>
      have hs : (hex_pattern_get ["O"] [] ⟨0, 0⟩ 1 "T").isSome = true := rfl
      rw [hrun] at hs
      exact Bool.noConfusion hs
    | some pr =>
      obtain ⟨y, x, hfo, _, _⟩ :=
        C7_origin_requirements.2.2 ["O"] [] ⟨0, 0⟩ 1 "T" pr.1 pr.2 hrun
      exact ⟨pr.1, pr.2, y, x, rfl, hfo⟩

/-- C7 counterexample: `hex_pattern_get` does not require exactly one `'O'`
— a pattern row containing two `'O'` characters is accepted (the run
succeeds), so only the absence of `'O'` is fatal. -/
theorem C7_two_origins_accepted :
    (hex_pattern_get ["OO"] [] ⟨0, 0⟩ 1 "T").isSome = true ∧
    "OO".data.count 'O' = 2 :=
  ⟨rfl, by decide⟩

/-- C6 (amended): the composite polygon is an ordered, locked list whose
element 0 is always the outline polygon; the remaining elements are the
battery-compartment features (which do include four side-marked encoder
slots), then all "RIGHT:"-marked feature groups in the order upper hex,
lower hex, line holes, lower arc, upper arc, miscellaneous holes, vertical
rectangles, then the mirror of each of those same groups. -/
theorem C6_composite_order :
    ∃ (P : PolygonT) (uh lh ln : List SP) (tbl : List (Char × P2D)),
      base_scad_polygon_generate = some P ∧
      base_outline_polygon_get =
        some (SP.contour "Romi Base Exterior" outline_points true) ∧
      upper_hex_polygons_get = some uh ∧
      lower_hex_polygons_table_get = some (lh, tbl) ∧
      line_hole_polygons_get tbl = some ln ∧
      P.simplePolygons =
        SP.contour "Romi Base Exterior" outline_points true ::
          (battery_polygons_get ++ mirrorable_polygons_of uh lh ln ++
            (mirrorable_polygons_of uh lh ln).map (SP.y_mirror "RIGHT:" "LEFT:")) ∧
      mirrorable_polygons_of uh lh ln =
        uh ++ lh ++ ln ++ lower_arc_holes_rectangles_get ++
          upper_arc_holes_rectangles_get ++ miscellaneous_holes_get.map SP.circle ++
          vertical_rectangles_get ∧
      P.simplePolygons.head? =
        some (SP.contour "Romi Base Exterior" outline_points true) ∧
      P.locked = true ∧
      (∀ f ∈ mirrorable_polygons_of uh lh ln, startsWithRight f.nameOf) := by
  obtain ⟨uh, lh, tbl, ln, huh, hlh, hln, hgen⟩ := base_scad_eq
  exact ⟨_, uh, lh, ln, tbl, hgen, base_outline_eq, huh, hlh, hln, rfl, rfl, rfl, rfl,
    mirrorable_all_marker huh hlh hln⟩

/-- C6 counterexample: the battery group is not free of side markers — it
contains the right outer encoder slot, whose name carries the "RIGHT: "
marker. -/
theorem C6_battery_marker_counterexample :
    SP.square outer_encoder_slot ∈ battery_polygons_get ∧
      startsWithRight (SP.square outer_encoder_slot).nameOf := by
  constructor
  · exact List.mem_append_right _ (by simp [battery_encoder_slots])
  · exact ⟨"Outer Encoder Slot", by decide⟩

/-- C10: the battery feature list ends with four encoder slots carrying
"RIGHT:"/"LEFT:" side markers, the two "LEFT:" ones produced by mirroring
the right ones inside the battery group itself; the battery group (these
slots included) sits verbatim in the non-mirrored battery section of the
composite polygon, so the assembler does not mirror it again. -/
theorem C10_encoder_slots_in_battery :
    (∃ pre, battery_polygons_get = pre ++
      [SP.square outer_encoder_slot,
       SP.y_mirror "RIGHT:" "LEFT:" (SP.square outer_encoder_slot),
       SP.square inner_encoder_slot,
       SP.y_mirror "RIGHT:" "LEFT:" (SP.square inner_encoder_slot)]) ∧
    (SP.square outer_encoder_slot).nameOf = "RIGHT: Outer Encoder Slot" ∧
    (SP.y_mirror "RIGHT:" "LEFT:" (SP.square outer_encoder_slot)).nameOf =
      "LEFT: Outer Encoder Slot" ∧
    (SP.square inner_encoder_slot).nameOf = "RIGHT: Inner Encoder Slot" ∧
    (SP.y_mirror "RIGHT:" "LEFT:" (SP.square inner_encoder_slot)).nameOf =
      "LEFT: Inner Encoder Slot" ∧
    ∃ (P : PolygonT) (uh lh ln : List SP) (tbl : List (Char × P2D)),
      upper_hex_polygons_get = some uh ∧
      lower_hex_polygons_table_get = some (lh, tbl) ∧
      line_hole_polygons_get tbl = some ln ∧
      base_scad_polygon_generate = some P ∧
      P.simplePolygons =
        SP.contour "Romi Base Exterior" outline_points true ::
          (battery_polygons_get ++ mirrorable_polygons_of uh lh ln ++
            (mirrorable_polygons_of uh lh ln).map (SP.y_mirror "RIGHT:" "LEFT:")) := by
  refine ⟨⟨battery_lower_holes ++ battery_upper_holes ++ battery_slot_polygons ++
    battery_cutout_polygons, ?_⟩, by decide, by decide, by decide, by decide, ?_⟩
  · simp [battery_polygons_get, battery_encoder_slots, List.append_assoc]
  · obtain ⟨uh, lh, tbl, ln, huh, hlh, hln, hgen⟩ := base_scad_eq
    exact ⟨_, uh, lh, ln, tbl, huh, hlh, hln, hgen, rfl⟩
